import Mathlib

/-!
# Verification of the seq Action Pack subsystem

A shallow embedding of the Action Pack codec, script compiler, and receiver
(`src/cli/cpp/src/action_pack.cpp`, `action_pack_server.cpp`,
`action_pack_cli.cpp`) together with proofs about the embedded definitions.

Byte strings (`std::string`, `std::vector<uint8_t>`) are modelled as
`List Nat` with each element a byte value; machine integers are `Nat` with
explicit masking (`% 256`, `% 2^32`, ...) where the C++ performs truncating
casts.  `std::unordered_map` / `std::unordered_set` are modelled as
association lists / lists with the container's insert semantics.  Operating
system effects (realpath, stat, mkstemp/rename, process spawn, the wall
clock, signature verification) are oracle parameters: arbitrary functions
standing for an arbitrary environment.
-/

deriving instance DecidableEq for Except

namespace ActionPack

/-- A byte string: each element is one byte of a C++ `std::string` or
`std::vector<uint8_t>`. -/
abbrev Bytes := List Nat

/-- ASCII literal helper: the byte string of a Lean string literal. -/
def bytes (s : String) : Bytes := s.toList.map Char.toNat

/-- `unordered_map::find` on an association list. -/
def mapFind : List (Bytes × Bytes) → Bytes → Option Bytes
  | [], _ => none
  | (k0, v0) :: rest, k => if k0 = k then some v0 else mapFind rest k

/-- `unordered_map` `operator[]` assignment on an association list:
replace the value when the key is present, else append the entry. -/
def mapSet : List (Bytes × Bytes) → Bytes → Bytes → List (Bytes × Bytes)
  | [], k, v => [(k, v)]
  | (k0, v0) :: rest, k, v =>
    if k0 = k then (k0, v) :: rest else (k0, v0) :: mapSet rest k v

/-- `unordered_map<string, uint64_t>::find` (replay cache lookup). -/
def expFind : List (Bytes × Nat) → Bytes → Option Nat
  | [], _ => none
  | (k0, v0) :: rest, k => if k0 = k then some v0 else expFind rest k

/-- `unordered_map<string, uint64_t>::erase` of one key. -/
def expErase : List (Bytes × Nat) → Bytes → List (Bytes × Nat)
  | [], _ => []
  | (k0, v0) :: rest, k =>
    if k0 = k then rest else (k0, v0) :: expErase rest k

/-- `unordered_map<string, uint64_t>` `operator[]` assignment. -/
def expSet : List (Bytes × Nat) → Bytes → Nat → List (Bytes × Nat)
  | [], k, v => [(k, v)]
  | (k0, v0) :: rest, k, v =>
    if k0 = k then (k0, v) :: rest else (k0, v0) :: expSet rest k v

/-! ## Binary codec primitives (`action_pack.cpp`)

Little-endian integer writers (`write_u16_le` and friends) and the `Reader`
struct's consuming read operations.  A reader takes the remaining buffer and
returns the value together with the unconsumed tail, or `none` on a short
read (`need(n)` failing). -/

/-- `write_u16_le`: two bytes, low first (`v & 0xff`, `(v >> 8) & 0xff`). -/
def writeU16le (v : Nat) : Bytes := [v % 256, v / 256 % 256]

/-- `write_u32_le`: four bytes, low first. -/
def writeU32le (v : Nat) : Bytes :=
  [v % 256, v / 2 ^ 8 % 256, v / 2 ^ 16 % 256, v / 2 ^ 24 % 256]

/-- `write_u64_le`: eight bytes, low first. -/
def writeU64le (v : Nat) : Bytes :=
  [v % 256, v / 2 ^ 8 % 256, v / 2 ^ 16 % 256, v / 2 ^ 24 % 256,
   v / 2 ^ 32 % 256, v / 2 ^ 40 % 256, v / 2 ^ 48 % 256, v / 2 ^ 56 % 256]

/-- `Reader::read_u8`. -/
def readU8 : Bytes → Option (Nat × Bytes)
  | [] => none
  | b :: r => some (b, r)

/-- `Reader::read_u16_le` (`p[0] | p[1] << 8`). -/
def readU16le : Bytes → Option (Nat × Bytes)
  | b0 :: b1 :: r => some (b0 + 256 * b1, r)
  | _ => none

/-- `Reader::read_u32_le`. -/
def readU32le : Bytes → Option (Nat × Bytes)
  | b0 :: b1 :: b2 :: b3 :: r =>
    some (b0 + 2 ^ 8 * b1 + 2 ^ 16 * b2 + 2 ^ 24 * b3, r)
  | _ => none

/-- `Reader::read_u64_le`. -/
def readU64le : Bytes → Option (Nat × Bytes)
  | b0 :: b1 :: b2 :: b3 :: b4 :: b5 :: b6 :: b7 :: r =>
    some (b0 + 2 ^ 8 * b1 + 2 ^ 16 * b2 + 2 ^ 24 * b3 + 2 ^ 32 * b4 +
          2 ^ 40 * b5 + 2 ^ 48 * b6 + 2 ^ 56 * b7, r)
  | _ => none

/-- `need(k)` followed by a raw copy of `k` bytes (memcpy / skip). -/
def readN (k : Nat) (s : Bytes) : Option (Bytes × Bytes) :=
  if k ≤ s.length then some (s.take k, s.drop k) else none

/-- `Reader::read_bytes`: a `u16` length prefix followed by that many bytes. -/
def readBytes16 (s : Bytes) : Option (Bytes × Bytes) :=
  match readU16le s with
  | none => none
  | some (len, r) => readN len r

/-- `Reader::read_blob`: a `u32` length prefix followed by that many bytes. -/
def readBlob32 (s : Bytes) : Option (Bytes × Bytes) :=
  match readU32le s with
  | none => none
  | some (len, r) => readN len r

/-! Round-trip facts for the primitives: reading what a writer produced
consumes exactly the written bytes and recovers the value modulo the
writer's width. -/

theorem readU8_append (b : Nat) (rest : Bytes) :
    readU8 (b :: rest) = some (b, rest) := rfl

theorem readU16le_writeU16le (v : Nat) (rest : Bytes) :
    readU16le (writeU16le v ++ rest) = some (v % 2 ^ 16, rest) := by
  simp only [writeU16le, List.cons_append, List.nil_append, readU16le]
  congr 1
  congr 1
  omega

theorem readU32le_writeU32le (v : Nat) (rest : Bytes) :
    readU32le (writeU32le v ++ rest) = some (v % 2 ^ 32, rest) := by
  simp only [writeU32le, List.cons_append, List.nil_append, readU32le]
  congr 1
  congr 1
  omega

theorem readU64le_writeU64le (v : Nat) (rest : Bytes) :
    readU64le (writeU64le v ++ rest) = some (v % 2 ^ 64, rest) := by
  simp only [writeU64le, List.cons_append, List.nil_append, readU64le]
  congr 1
  congr 1
  omega

theorem readN_append (l rest : Bytes) :
    readN l.length (l ++ rest) = some (l, rest) := by
  simp [readN, List.take_append, List.drop_append]

theorem readBytes16_append (l rest : Bytes) (h : l.length ≤ 65535) :
    readBytes16 (writeU16le l.length ++ (l ++ rest)) = some (l, rest) := by
  have h2 : l.length % 2 ^ 16 = l.length := Nat.mod_eq_of_lt (by omega)
  simp only [readBytes16, ← List.append_assoc, readU16le_writeU16le,
    List.append_assoc, h2, readN_append]

theorem readBlob32_append (l rest : Bytes) (h : l.length ≤ 4294967295) :
    readBlob32 (writeU32le l.length ++ (l ++ rest)) = some (l, rest) := by
  have h2 : l.length % 2 ^ 32 = l.length := Nat.mod_eq_of_lt (by omega)
  simp only [readBlob32, ← List.append_assoc, readU32le_writeU32le,
    List.append_assoc, h2, readN_append]

/-! ## Data model (`action_pack.h`) -/

/-- `ExecStep`: argv, cwd, timeout. -/
structure ExecStep where
  argv : List Bytes
  cwd : Bytes
  timeout_ms : Nat
  deriving DecidableEq, Repr

/-- `WriteFileStep`: destination path, raw data, mode. -/
structure WriteFileStep where
  path : Bytes
  data : Bytes
  mode : Nat
  deriving DecidableEq, Repr

/-- `Step = std::variant<ExecStep, WriteFileStep>`. -/
inductive Step where
  | exec : ExecStep → Step
  | write : WriteFileStep → Step
  deriving DecidableEq, Repr

/-- `Pack`.  `env` is an `unordered_map<string, string>`, modelled as an
association list with unique keys; `pack_id` is `std::array<uint8_t, 16>`,
modelled as a byte list of length 16. -/
structure Pack where
  key_id : Bytes
  created_ms : Nat
  expires_ms : Nat
  pack_id : Bytes
  env : List (Bytes × Bytes)
  steps : List Step
  deriving DecidableEq, Repr

/-- `Envelope`. -/
structure Envelope where
  payload : Bytes
  signature : Bytes
  deriving DecidableEq, Repr

/-- `kMaxPayloadSteps`. -/
def kMaxPayloadSteps : Nat := 10000

/-- `kMaxTotalWriteBytes` (8 MiB). -/
def kMaxTotalWriteBytes : Nat := 8 * 1024 * 1024

/-- Sum of `data.len()` over the `WriteFileStep`s of a step list. -/
def writeSum : List Step → Nat
  | [] => 0
  | .exec _ :: rest => writeSum rest
  | .write w :: rest => w.data.length + writeSum rest

/-! ## Payload encoder (`encode_payload`) -/

/-- `write_bytes`: a `u16` length-prefixed string; fails when the string
exceeds 65535 bytes. -/
def write_bytes (s : Bytes) : Except Bytes Bytes :=
  if s.length > 65535 then .error (bytes "string too long")
  else .ok (writeU16le s.length ++ s)

/-- `write_blob`: a `u32` length-prefixed blob; fails above `2^32 - 1`. -/
def write_blob (d : Bytes) : Except Bytes Bytes :=
  if d.length > 4294967295 then .error (bytes "blob too large")
  else .ok (writeU32le d.length ++ d)

/-- The running total-write check of `encode_payload`'s first loop over the
steps: accumulate `WriteFileStep` data sizes and fail as soon as the total
exceeds `kMaxTotalWriteBytes`. -/
def checkTotalWrite : List Step → Nat → Except Bytes Unit
  | [], _ => .ok ()
  | .exec _ :: rest, t => checkTotalWrite rest t
  | .write w :: rest, t =>
    if t + w.data.length > kMaxTotalWriteBytes then
      .error (bytes "total embedded write bytes too large")
    else checkTotalWrite rest (t + w.data.length)

/-- The env-map serialization loop of `encode_payload`. -/
def encodeEnvList : List (Bytes × Bytes) → Except Bytes Bytes
  | [] => .ok []
  | (k, v) :: rest => do
    let bk ← write_bytes k
    let bv ← write_bytes v
    let br ← encodeEnvList rest
    .ok (bk ++ bv ++ br)

/-- The argv serialization loop of an exec step. -/
def encodeArgs : List Bytes → Except Bytes Bytes
  | [] => .ok []
  | a :: rest => do
    let ba ← write_bytes a
    let br ← encodeArgs rest
    .ok (ba ++ br)

/-- Serialization of one step (opcode, flags, reserved, `field_a`, the
length-prefixed string, then the opcode-specific tail). -/
def encodeStep : Step → Except Bytes Bytes
  | .exec s => do
    let bcwd ← write_bytes s.cwd
    if s.argv.length > 65535 then .error (bytes "too many argv entries")
    else do
      let bargs ← encodeArgs s.argv
      .ok ([1, 0] ++ writeU16le 0 ++ writeU32le s.timeout_ms ++ bcwd ++
           writeU16le s.argv.length ++ bargs)
  | .write w => do
    let bpath ← write_bytes w.path
    let bblob ← write_blob w.data
    .ok ([2, 0] ++ writeU16le 0 ++ writeU32le w.mode ++ bpath ++ bblob)

/-- The step serialization loop of `encode_payload`. -/
def encodeSteps : List Step → Except Bytes Bytes
  | [] => .ok []
  | st :: rest => do
    let bs ← encodeStep st
    let br ← encodeSteps rest
    .ok (bs ++ br)

/-- `encode_payload`: validity checks (key_id, step count, total write
bytes), then magic `APK1`, version 2, the fixed header, key_id bytes, env
entries and steps. -/
def encode_payload (p : Pack) : Except Bytes Bytes := do
  if p.key_id = [] then .error (bytes "missing key_id")
  else if p.key_id.length > 255 then .error (bytes "key_id too long")
  else if p.steps.length > kMaxPayloadSteps then .error (bytes "too many steps")
  else do
    let _ ← checkTotalWrite p.steps 0
    let benv ← encodeEnvList p.env
    let bsteps ← encodeSteps p.steps
    .ok ([65, 80, 75, 49] ++ [2, p.key_id.length % 256] ++ writeU16le 0 ++
         writeU64le p.created_ms ++ writeU64le p.expires_ms ++ p.pack_id ++
         writeU32le p.env.length ++ writeU32le p.steps.length ++ p.key_id ++
         benv ++ bsteps)

/-! ## Payload decoder (`decode_payload`) -/

/-- The env-entry reading loop of `decode_payload`; entries go into the
map with `operator[]` assignment semantics. -/
def decodeEnv : Nat → List (Bytes × Bytes) → Bytes →
    Except Bytes (List (Bytes × Bytes) × Bytes)
  | 0, acc, r => .ok (acc, r)
  | n + 1, acc, r =>
    match readBytes16 r with
    | none => .error (bytes "env truncated")
    | some (k, r) =>
      match readBytes16 r with
      | none => .error (bytes "env truncated")
      | some (v, r) => decodeEnv n (mapSet acc k v) r

/-- The argv reading loop of an exec step. -/
def decodeArgs : Nat → Bytes → Except Bytes (List Bytes × Bytes)
  | 0, r => .ok ([], r)
  | n + 1, r =>
    match readBytes16 r with
    | none => .error (bytes "argv truncated")
    | some (a, r) =>
      match decodeArgs n r with
      | .error e => .error e
      | .ok (args, r) => .ok (a :: args, r)

/-- The step reading loop of `decode_payload`: `version` gates opcode 2,
`tw` is the running total of embedded write bytes. -/
def decodeSteps (version : Nat) : Nat → Nat → Bytes →
    Except Bytes (List Step × Bytes)
  | 0, _, r => .ok ([], r)
  | n + 1, tw, r =>
    match readU8 r with
    | none => .error (bytes "step truncated")
    | some (opcode, r) =>
    match readU8 r with
    | none => .error (bytes "step truncated")
    | some (_flags, r) =>
    match readU16le r with
    | none => .error (bytes "step truncated")
    | some (_res2, r) =>
    match readU32le r with
    | none => .error (bytes "step truncated")
    | some (field_a, r) =>
    match readBytes16 r with
    | none => .error (bytes "step truncated")
    | some (cwd, r) =>
    if opcode = 1 then
      match readU16le r with
      | none => .error (bytes "argv truncated")
      | some (argc, r) =>
      match decodeArgs argc r with
      | .error e => .error e
      | .ok (args, r) =>
      match decodeSteps version n tw r with
      | .error e => .error e
      | .ok (steps, r) =>
        .ok (.exec ⟨args, cwd, field_a⟩ :: steps, r)
    else if opcode = 2 then
      if version = 1 then .error (bytes "unsupported opcode")
      else
        match readU32le r with
        | none => .error (bytes "write truncated")
        | some (blob_len, r) =>
        if tw + blob_len > kMaxTotalWriteBytes then
          .error (bytes "total embedded write bytes too large")
        else
          match readN blob_len r with
          | none => .error (bytes "write truncated")
          | some (data, r) =>
          match decodeSteps version n (tw + blob_len) r with
          | .error e => .error e
          | .ok (steps, r) =>
            .ok (.write ⟨cwd, data, field_a⟩ :: steps, r)
    else .error (bytes "unsupported opcode")

/-- `decode_payload`: size floor, magic, header, env entries, step-count
cap, steps, and the trailing-bytes check. -/
def decode_payload (s : Bytes) : Except Bytes Pack :=
  if s.length < 4 + 1 + 1 + 2 + 8 + 8 + 16 + 4 + 4 then
    .error (bytes "payload too small")
  else
    match s with
    | m0 :: m1 :: m2 :: m3 :: r =>
      if m0 = 65 ∧ m1 = 80 ∧ m2 = 75 ∧ m3 = 49 then
        match readU8 r with
        | none => .error (bytes "payload header truncated")
        | some (version, r) =>
        match readU8 r with
        | none => .error (bytes "payload header truncated")
        | some (key_id_len, r) =>
        match readU16le r with
        | none => .error (bytes "payload header truncated")
        | some (_reserved, r) =>
        if version ≠ 1 ∧ version ≠ 2 then
          .error (bytes "unsupported payload version")
        else
        match readU64le r with
        | none => .error (bytes "payload header truncated")
        | some (created_ms, r) =>
        match readU64le r with
        | none => .error (bytes "payload header truncated")
        | some (expires_ms, r) =>
        match readN 16 r with
        | none => .error (bytes "payload header truncated")
        | some (pack_id, r) =>
        match readU32le r with
        | none => .error (bytes "payload header truncated")
        | some (env_count, r) =>
        match readU32le r with
        | none => .error (bytes "payload header truncated")
        | some (step_count, r) =>
        match readN key_id_len r with
        | none => .error (bytes "payload key_id truncated")
        | some (key_id, r) =>
        match decodeEnv env_count [] r with
        | .error e => .error e
        | .ok (env, r) =>
        if step_count > kMaxPayloadSteps then .error (bytes "too many steps")
        else
        match decodeSteps version step_count 0 r with
        | .error e => .error e
        | .ok (steps, r) =>
        if r ≠ [] then .error (bytes "payload has trailing bytes")
        else .ok ⟨key_id, created_ms, expires_ms, pack_id, env, steps⟩
      else .error (bytes "bad payload magic")
    | _ => .error (bytes "bad payload magic")

/-! ## Envelope codec (`encode_envelope` / `decode_envelope`) -/

/-- `encode_envelope`: magic `SAP1`, `u32` payload length, payload bytes,
`u32` signature length, signature bytes; empty fields are refused. -/
def encode_envelope (e : Envelope) : Except Bytes Bytes :=
  if e.payload = [] then .error (bytes "empty payload")
  else if e.signature = [] then .error (bytes "empty signature")
  else if e.payload.length > 4294967295 ∨ e.signature.length > 4294967295 then
    .error (bytes "too large")
  else
    .ok ([83, 65, 80, 49] ++ writeU32le e.payload.length ++ e.payload ++
         writeU32le e.signature.length ++ e.signature)

/-- `decode_envelope`: size floor, magic, the two length-prefixed fields,
and the exact-remainder check (`r.n == sig_len`). -/
def decode_envelope (s : Bytes) : Except Bytes Envelope :=
  if s.length < 4 + 4 + 4 then .error (bytes "envelope too small")
  else
    match s with
    | m0 :: m1 :: m2 :: m3 :: r =>
      if m0 = 83 ∧ m1 = 65 ∧ m2 = 80 ∧ m3 = 49 then
        match readU32le r with
        | none => .error (bytes "envelope truncated")
        | some (payload_len, r) =>
        if ¬ (payload_len + 4 ≤ r.length) then .error (bytes "envelope truncated")
        else
        match readN payload_len r with
        | none => .error (bytes "envelope truncated")
        | some (payload, r) =>
        match readU32le r with
        | none => .error (bytes "envelope truncated")
        | some (sig_len, r) =>
        if ¬ (sig_len ≤ r.length ∧ r.length = sig_len) then
          .error (bytes "envelope truncated")
        else
          match readN sig_len r with
          | none => .error (bytes "envelope truncated")
          | some (signature, _r) => .ok ⟨payload, signature⟩
      else .error (bytes "bad envelope magic")
    | _ => .error (bytes "bad envelope magic")

/-! ## Payload round trip -/

/-- Valid per-step fields: all strings fit a `u16` length prefix, counts
fit `u16`, and the integer fields fit the machine word written for them. -/
def ValidStep : Step → Prop
  | .exec s => s.cwd.length ≤ 65535 ∧ s.argv.length ≤ 65535 ∧
      (∀ a ∈ s.argv, a.length ≤ 65535) ∧ s.timeout_ms < 2 ^ 32
  | .write w => w.path.length ≤ 65535 ∧ w.mode < 2 ^ 32

instance ValidStep.decidable (st : Step) : Decidable (ValidStep st) :=
  match st with
  | .exec s => inferInstanceAs (Decidable (s.cwd.length ≤ 65535 ∧
      s.argv.length ≤ 65535 ∧ (∀ a ∈ s.argv, a.length ≤ 65535) ∧
      s.timeout_ms < 2 ^ 32))
  | .write w => inferInstanceAs (Decidable (w.path.length ≤ 65535 ∧
      w.mode < 2 ^ 32))

/-- Valid pack fields (matching the C++ field types and the encoder's
explicit checks): nonempty `key_id` of at most 255 bytes, a 16-byte
`pack_id`, `u64` time stamps, an env map with unique keys whose size fits
the `u32` count and whose strings fit `u16` prefixes, at most 10 000 steps,
valid step fields, and at most 8 MiB of total embedded write data. -/
structure ValidPack (p : Pack) : Prop where
  key_nonempty : p.key_id ≠ []
  key_len : p.key_id.length ≤ 255
  pid_len : p.pack_id.length = 16
  created_lt : p.created_ms < 2 ^ 64
  expires_lt : p.expires_ms < 2 ^ 64
  env_count : p.env.length < 2 ^ 32
  env_fields : ∀ kv ∈ p.env, kv.1.length ≤ 65535 ∧ kv.2.length ≤ 65535
  env_nodup : (p.env.map Prod.fst).Nodup
  steps_count : p.steps.length ≤ kMaxPayloadSteps
  steps_valid : ∀ st ∈ p.steps, ValidStep st
  total_write : writeSum p.steps ≤ kMaxTotalWriteBytes

theorem write_bytes_ok {s : Bytes} (h : s.length ≤ 65535) :
    write_bytes s = .ok (writeU16le s.length ++ s) := by
  simp [write_bytes, Nat.not_lt.mpr h]

theorem readBytes16_write_bytes {s : Bytes} (h : s.length ≤ 65535)
    (rest : Bytes) :
    readBytes16 ((writeU16le s.length ++ s) ++ rest) = some (s, rest) := by
  rw [List.append_assoc]
  exact readBytes16_append s rest h

theorem encodeArgs_ok {argv : List Bytes} (h : ∀ a ∈ argv, a.length ≤ 65535) :
    ∃ bs, encodeArgs argv = .ok bs ∧
      ∀ rest, decodeArgs argv.length (bs ++ rest) = .ok (argv, rest) := by
  induction argv with
  | nil => exact ⟨[], rfl, fun rest => by simp [decodeArgs]⟩
  | cons a rest ih =>
    obtain ⟨bs, hbs, hdec⟩ := ih (fun x hx => h x (List.mem_cons_of_mem a hx))
    have ha := h a (List.mem_cons_self a rest)
    refine ⟨writeU16le a.length ++ a ++ bs, ?_, ?_⟩
    · simp only [encodeArgs, write_bytes_ok ha, hbs]
      rfl
    · intro r
      simp only [List.length_cons, decodeArgs, List.append_assoc,
        readBytes16_append a (bs ++ r) ha, hdec]

theorem encodeEnvList_ok {env : List (Bytes × Bytes)}
    (h : ∀ kv ∈ env, kv.1.length ≤ 65535 ∧ kv.2.length ≤ 65535) :
    ∃ bs, encodeEnvList env = .ok bs ∧
      ∀ acc rest, decodeEnv env.length acc (bs ++ rest) =
        .ok (List.foldl (fun m kv => mapSet m kv.1 kv.2) acc env, rest) := by
  induction env with
  | nil => exact ⟨[], rfl, fun acc rest => by simp [decodeEnv]⟩
  | cons kv rest ih =>
    obtain ⟨bs, hbs, hdec⟩ := ih (fun x hx => h x (List.mem_cons_of_mem kv hx))
    obtain ⟨hk, hv⟩ := h kv (List.mem_cons_self kv rest)
    refine ⟨writeU16le kv.1.length ++ kv.1 ++ (writeU16le kv.2.length ++ kv.2) ++ bs,
      ?_, ?_⟩
    · simp only [encodeEnvList, write_bytes_ok hk, write_bytes_ok hv, hbs]
      rfl
    · intro acc r
      simp only [List.length_cons, decodeEnv, List.append_assoc,
        readBytes16_append kv.1 _ hk, readBytes16_append kv.2 _ hv, hdec,
        List.foldl_cons]

/-- Keys present in an association list. -/
def mapKeys (m : List (Bytes × Bytes)) : List Bytes := m.map Prod.fst

theorem mapSet_not_mem {m : List (Bytes × Bytes)} {k : Bytes} (v : Bytes)
    (h : k ∉ mapKeys m) : mapSet m k v = m ++ [(k, v)] := by
  induction m with
  | nil => rfl
  | cons kv rest ih =>
    obtain ⟨k0, v0⟩ := kv
    simp only [mapKeys, List.map_cons, List.mem_cons] at h
    push_neg at h
    have hne : k0 ≠ k := fun he => h.1 he.symm
    simp only [mapSet, if_neg hne, List.cons_append,
      ih (by simpa [mapKeys] using h.2)]

theorem foldl_mapSet_eq {env : List (Bytes × Bytes)}
    (hnd : (env.map Prod.fst).Nodup) :
    ∀ acc, (∀ kv ∈ env, kv.1 ∉ mapKeys acc) →
      List.foldl (fun m kv => mapSet m kv.1 kv.2) acc env = acc ++ env := by
  induction env with
  | nil => simp
  | cons kv rest ih =>
    intro acc hdisj
    simp only [List.map_cons, List.nodup_cons] at hnd
    simp only [List.foldl_cons]
    rw [mapSet_not_mem kv.2 (hdisj kv (List.mem_cons_self kv rest))]
    rw [ih hnd.2 _ ?_]
    · simp
    · intro x hx
      simp only [mapKeys, List.map_append, List.mem_append, List.map_cons,
        List.map_nil, List.mem_singleton]
      push_neg
      refine ⟨fun hc => hdisj x (List.mem_cons_of_mem kv hx) hc, fun he => hnd.1 ?_⟩
      rw [← he]
      exact List.mem_map_of_mem Prod.fst hx

theorem encodeSteps_ok {steps : List Step} (h : ∀ st ∈ steps, ValidStep st) :
    ∀ tw, tw + writeSum steps ≤ kMaxTotalWriteBytes →
      checkTotalWrite steps tw = .ok () ∧
      ∃ bs, encodeSteps steps = .ok bs ∧
        ∀ rest, decodeSteps 2 steps.length tw (bs ++ rest) = .ok (steps, rest) := by
  induction steps with
  | nil =>
    exact fun tw _ => ⟨rfl, [], rfl, fun rest => by simp [decodeSteps]⟩
  | cons st rest ih =>
    intro tw htw
    have hst := h st (List.mem_cons_self st rest)
    match st with
    | .exec s =>
      obtain ⟨hcwd, hargc, hargs, htimeout⟩ := hst
      obtain ⟨hchk, bs, hbs, hdec⟩ :=
        ih (fun x hx => h x (List.mem_cons_of_mem _ hx)) tw (by
          simpa [writeSum] using htw)
      obtain ⟨ba, hba, hbadec⟩ := encodeArgs_ok hargs
      have hargcneg : ¬ (s.argv.length > 65535) := by omega
      refine ⟨by simpa [checkTotalWrite] using hchk,
        ([1, 0] ++ writeU16le 0 ++ writeU32le s.timeout_ms ++
          (writeU16le s.cwd.length ++ s.cwd) ++ writeU16le s.argv.length ++ ba) ++ bs,
        ?_, ?_⟩
      · simp only [encodeSteps, encodeStep, write_bytes_ok hcwd,
          if_neg hargcneg, hba, hbs]
        rfl
      · intro r
        have hcwdR : ∀ t, readBytes16 (writeU16le s.cwd.length ++ (s.cwd ++ t)) =
            some (s.cwd, t) := fun t => readBytes16_append s.cwd t hcwd
        have hto : s.timeout_ms % 2 ^ 32 = s.timeout_ms := Nat.mod_eq_of_lt htimeout
        have hac : s.argv.length % 2 ^ 16 = s.argv.length :=
          Nat.mod_eq_of_lt (by omega)
        simp only [List.length_cons, decodeSteps, List.append_assoc,
          List.cons_append, List.nil_append, readU8, readU16le_writeU16le,
          readU32le_writeU32le, hcwdR, hto, hac, hbadec, hdec]
        simp
    | .write w =>
      obtain ⟨hpath, hmode⟩ := hst
      have hdata : w.data.length ≤ kMaxTotalWriteBytes := by
        simp only [writeSum] at htw
        omega
      have hnochk : ¬ (tw + w.data.length > kMaxTotalWriteBytes) := by
        simp only [writeSum] at htw
        omega
      obtain ⟨hchk, bs, hbs, hdec⟩ :=
        ih (fun x hx => h x (List.mem_cons_of_mem _ hx)) (tw + w.data.length) (by
          simp only [writeSum] at htw
          omega)
      have hdata2 : w.data.length ≤ 8388608 := by
        unfold kMaxTotalWriteBytes at hdata
        omega
      have hblobneg : ¬ (w.data.length > 4294967295) := by omega
      refine ⟨?_, ([2, 0] ++ writeU16le 0 ++ writeU32le w.mode ++
          (writeU16le w.path.length ++ w.path) ++
          (writeU32le w.data.length ++ w.data)) ++ bs, ?_, ?_⟩
      · simpa [checkTotalWrite, hnochk] using hchk
      · simp only [encodeSteps, encodeStep, write_bytes_ok hpath, write_blob,
          hbs, if_neg hblobneg]
        rfl
      · intro r
        have hpathR : ∀ t, readBytes16 (writeU16le w.path.length ++ (w.path ++ t)) =
            some (w.path, t) := fun t => readBytes16_append w.path t hpath
        have hmo : w.mode % 2 ^ 32 = w.mode := Nat.mod_eq_of_lt hmode
        have hdl : w.data.length % 2 ^ 32 = w.data.length :=
          Nat.mod_eq_of_lt (by omega)
        have hdataR : ∀ t, readN w.data.length (w.data ++ t) = some (w.data, t) :=
          fun t => readN_append w.data t
        simp only [List.length_cons, decodeSteps, List.append_assoc,
          List.cons_append, List.nil_append, readU8, readU16le_writeU16le,
          readU32le_writeU32le, hpathR, hmo, hdl, hdataR, hdec]
        simp [hnochk]

theorem writeU16le_length (v : Nat) : (writeU16le v).length = 2 := rfl

theorem writeU32le_length (v : Nat) : (writeU32le v).length = 4 := rfl

theorem writeU64le_length (v : Nat) : (writeU64le v).length = 8 := rfl

theorem encode_decode_payload {p : Pack} (hv : ValidPack p) :
    ∃ bs, encode_payload p = .ok bs ∧ decode_payload bs = .ok p := by
  obtain ⟨hkne, hklen, hpid, hclt, hexlt, henvc, henvf, henvnd, hstc, hstv, htot⟩ := hv
  obtain ⟨hchk, bsteps, hbsteps, hdecsteps⟩ :=
    encodeSteps_ok hstv 0 (by simpa using htot)
  obtain ⟨benv, hbenv, hdecenv⟩ := encodeEnvList_ok henvf
  have hkmod : p.key_id.length % 256 = p.key_id.length := Nat.mod_eq_of_lt (by omega)
  have hksteps : ¬ (p.steps.length > kMaxPayloadSteps) := by omega
  have hkbig : ¬ (p.key_id.length > 255) := by omega
  refine ⟨[65, 80, 75, 49] ++ [2, p.key_id.length % 256] ++ writeU16le 0 ++
      writeU64le p.created_ms ++ writeU64le p.expires_ms ++ p.pack_id ++
      writeU32le p.env.length ++ writeU32le p.steps.length ++ p.key_id ++
      benv ++ bsteps, ?_, ?_⟩
  · simp only [encode_payload, if_neg hkne, if_neg hkbig, if_neg hksteps,
      hchk, hbenv, hbsteps]
    rfl
  · have hlen : ¬ (([65, 80, 75, 49] ++ [2, p.key_id.length % 256] ++ writeU16le 0 ++
        writeU64le p.created_ms ++ writeU64le p.expires_ms ++ p.pack_id ++
        writeU32le p.env.length ++ writeU32le p.steps.length ++ p.key_id ++
        benv ++ bsteps).length < 4 + 1 + 1 + 2 + 8 + 8 + 16 + 4 + 4) := by
      simp only [List.length_append, writeU16le_length, writeU32le_length,
        writeU64le_length, List.length_cons, List.length_nil, hpid]
      omega
    have hcmod : p.created_ms % 2 ^ 64 = p.created_ms := Nat.mod_eq_of_lt hclt
    have hemod : p.expires_ms % 2 ^ 64 = p.expires_ms := Nat.mod_eq_of_lt hexlt
    have henvmod : p.env.length % 2 ^ 32 = p.env.length := Nat.mod_eq_of_lt henvc
    have hstmod : p.steps.length % 2 ^ 32 = p.steps.length :=
      Nat.mod_eq_of_lt (by unfold kMaxPayloadSteps at hstc; omega)
    have hpidR : ∀ t, readN 16 (p.pack_id ++ t) = some (p.pack_id, t) := by
      intro t
      rw [← hpid]
      exact readN_append p.pack_id t
    have hkeyR : ∀ t, readN p.key_id.length (p.key_id ++ t) =
        some (p.key_id, t) := fun t => readN_append p.key_id t
    have hdecsteps2 : decodeSteps 2 p.steps.length 0 bsteps = .ok (p.steps, []) := by
      have := hdecsteps []
      simpa using this
    have hdecenv2 : ∀ t, decodeEnv p.env.length [] (benv ++ t) = .ok (p.env, t) := by
      intro t
      rw [hdecenv [] t, foldl_mapSet_eq henvnd [] (by simp [mapKeys])]
      simp
    simp only [decode_payload, List.cons_append, List.append_assoc,
      List.nil_append, hkmod, readU8, readU16le_writeU16le, readU64le_writeU64le,
      hcmod, hemod, hpidR, readU32le_writeU32le, henvmod, hstmod, hkeyR,
      hdecenv2, hdecsteps2]
    split
    · next hcond =>
      exfalso
      simp only [List.length_append, writeU16le_length, writeU32le_length,
        writeU64le_length, List.length_cons, List.length_nil, hpid] at hcond
      omega
    · simp [hksteps]

theorem encode_decode_envelope {e : Envelope} (hp : e.payload ≠ [])
    (hs : e.signature ≠ []) (hpl : e.payload.length ≤ 4294967295)
    (hsl : e.signature.length ≤ 4294967295) :
    ∃ bs, encode_envelope e = .ok bs ∧ decode_envelope bs = .ok e := by
  have hbig : ¬ (e.payload.length > 4294967295 ∨ e.signature.length > 4294967295) := by
    omega
  refine ⟨[83, 65, 80, 49] ++ writeU32le e.payload.length ++ e.payload ++
      writeU32le e.signature.length ++ e.signature, ?_, ?_⟩
  · simp only [encode_envelope, if_neg hp, if_neg hs, if_neg hbig]
  · have hpmod : e.payload.length % 2 ^ 32 = e.payload.length :=
      Nat.mod_eq_of_lt (by omega)
    have hsmod : e.signature.length % 2 ^ 32 = e.signature.length :=
      Nat.mod_eq_of_lt (by omega)
    have hplR : ∀ t, readN e.payload.length (e.payload ++ t) =
        some (e.payload, t) := fun t => readN_append e.payload t
    have hsigR : readN e.signature.length e.signature = some (e.signature, []) := by
      have := readN_append e.signature []
      simpa using this
    simp only [decode_envelope, List.cons_append, List.append_assoc,
      List.nil_append, readU32le_writeU32le, hpmod, hsmod, hplR, hsigR]
    split
    · next hcond =>
      exfalso
      simp only [List.length_append, writeU32le_length, List.length_cons,
        List.length_nil] at hcond
      omega
    · simp [hsigR, List.length_append, writeU32le_length]

/-- C2: for every Pack with valid fields (nonempty `key_id` of at most 255
bytes, at most 10 000 steps, strings at most 65 535 bytes, argv counts at
most 65 535, at most 8 MiB total embedded write data — together with the
bounds inherent in the C++ field types: `u64` time stamps, a 16-byte
`pack_id`, a `u32`-counted env map with unique keys), `encode_payload`
succeeds and `decode_payload` of its output returns the same Pack
field-wise; and for every Envelope with nonempty payload and signature of
at most `2^32 - 1` bytes each, `decode_envelope (encode_envelope e)`
returns `e` byte-wise. -/
theorem C2_codec_round_trip (p : Pack) (e : Envelope) (hp : ValidPack p)
    (hep : e.payload ≠ []) (hes : e.signature ≠ [])
    (hpl : e.payload.length ≤ 4294967295) (hsl : e.signature.length ≤ 4294967295) :
    (∃ bs, encode_payload p = .ok bs ∧ decode_payload bs = .ok p) ∧
    (∃ bs, encode_envelope e = .ok bs ∧ decode_envelope bs = .ok e) :=
  ⟨encode_decode_payload hp, encode_decode_envelope hep hes hpl hsl⟩

/-- A small concrete pack exercising both step kinds and the env map. -/
def witnessPack : Pack :=
  ⟨bytes "k1", 5, 1000, List.replicate 16 7,
   [(bytes "A", bytes "1"), (bytes "B", bytes "2")],
   [.exec ⟨[bytes "/bin/echo", bytes "hi"], bytes "/tmp/sb", 9⟩,
    .write ⟨bytes "/tmp/sb/f", [1, 2, 3], 420⟩]⟩

/-- A small concrete envelope. -/
def witnessEnvelope : Envelope := ⟨[10, 20], [30]⟩

theorem C2_codec_round_trip_witness :
    (ValidPack witnessPack ∧ witnessEnvelope.payload ≠ [] ∧
     witnessEnvelope.signature ≠ [] ∧ witnessEnvelope.payload.length ≤ 4294967295 ∧
     witnessEnvelope.signature.length ≤ 4294967295) ∧
    ((∃ bs, encode_payload witnessPack = .ok bs ∧
        decode_payload bs = .ok witnessPack) ∧
     (∃ bs, encode_envelope witnessEnvelope = .ok bs ∧
        decode_envelope bs = .ok witnessEnvelope)) :=
  have hv : ValidPack witnessPack :=
    ⟨by decide, by decide, by decide, by decide, by decide, by decide, by decide,
     by decide, by decide, by decide, by decide⟩
  ⟨⟨hv, by decide, by decide, by decide, by decide⟩,
   C2_codec_round_trip witnessPack witnessEnvelope hv (by decide) (by decide)
     (by decide) (by decide)⟩

/-- C10: `decode_envelope` accepts the 12-byte input `SAP1` followed by a
zero `u32` payload length and a zero `u32` signature length, returning an
envelope with empty payload and signature, while `encode_envelope` fails
on every envelope whose payload or signature is empty. -/
theorem C10_envelope_empty_asymmetry :
    decode_envelope ([83, 65, 80, 49] ++ [0, 0, 0, 0] ++ [0, 0, 0, 0]) =
      .ok ⟨[], []⟩ ∧
    ∀ e : Envelope, e.payload = [] ∨ e.signature = [] →
      ∃ msg, encode_envelope e = .error msg := by
  refine ⟨by decide, ?_⟩
  intro e h
  unfold encode_envelope
  rcases h with h | h
  · simp [h]
  · by_cases hp2 : e.payload = []
    · simp [hp2]
    · simp [hp2, h]

theorem C10_envelope_empty_asymmetry_witness :
    ((⟨[], [1]⟩ : Envelope).payload = [] ∨ (⟨[], [1]⟩ : Envelope).signature = []) ∧
    ∃ msg, encode_envelope ⟨[], [1]⟩ = .error msg :=
  ⟨Or.inl (by decide),
   C10_envelope_empty_asymmetry.2 ⟨[], [1]⟩ (Or.inl (by decide))⟩

/-! ## Receiver model (`action_pack_server.cpp`)

The server's pure logic is embedded directly; operating-system calls
(realpath, stat, the temp-file write phase, process spawn, the wall clock,
signature verification) are oracle functions collected in `World` — an
arbitrary environment. -/

/-- `ServerState::KeyPolicy`.  The `unordered_set`s are lists with
membership semantics. -/
structure KeyPolicy where
  allowed_cmds : List Bytes
  allowed_env : List Bytes
  allow_root_scripts : Bool
  allow_exec_writes : Bool
  deriving DecidableEq, Repr

/-- The `Options` fields consumed by `handle_pack` / `safe_write_file`. -/
structure ServerCfg where
  root : Bytes
  root_real : Bytes
  max_output : Nat
  deriving DecidableEq, Repr

/-- `process::CaptureResult`. -/
structure CaptureResult where
  exit_code : Int
  ok : Bool
  timed_out : Bool
  out : Bytes
  err : Bytes
  error : Bytes
  deriving DecidableEq, Repr

/-- Outcome of the temp-file phase of `safe_write_file` (mkstemp, fstat of
the temp, the write loop, lstat of the destination, rename): either it all
succeeds, or it fails with the corresponding error message.  The phase
runs strictly after the path checks and the mode check and does not
otherwise affect control flow. -/
inductive LowWriteResult where
  | ok
  | err (msg : Bytes)
  deriving DecidableEq, Repr

/-- The operating-system environment of one `handle_pack` call.
Per-step oracles are indexed by the step number. -/
structure World where
  home : Bytes
  realpath : Bytes → Bytes
  statExec : Bytes → Bool
  lowWrite : Nat → LowWriteResult
  run : Nat → CaptureResult
  dur : Nat → Nat
  now : Nat
  verify : Bytes → Bytes → Bytes → Bool
  verifyErr : Bytes

/-- `within_root`: the cheap string-prefix check (empty root accepts
everything, empty path is rejected, otherwise `root` must be a prefix and
the next character, when any, must be `/`). -/
def within_root (path root : Bytes) : Bool :=
  if root = [] then true
  else if path = [] then false
  else if path.length < root.length then false
  else if path.take root.length ≠ root then false
  else if path.length = root.length then true
  else decide (path.get? root.length = some 47)

/-- `strings::starts_with` / `rfind(p, 0) == 0`: byte-string prefix test. -/
def startsWithBytes (p s : Bytes) : Bool := decide (s.take p.length = p)

/-- The fixed short-name table of `resolve_argv`. -/
def kCmdMap : List (Bytes × Bytes) :=
  [(bytes "git", bytes "/usr/bin/git"),
   (bytes "make", bytes "/usr/bin/make"),
   (bytes "pwd", bytes "/bin/pwd"),
   (bytes "echo", bytes "/bin/echo"),
   (bytes "ls", bytes "/bin/ls"),
   (bytes "rm", bytes "/bin/rm"),
   (bytes "mkdir", bytes "/bin/mkdir"),
   (bytes "bash", bytes "/bin/bash"),
   (bytes "zsh", bytes "/bin/zsh"),
   (bytes "python3", bytes "/usr/bin/python3"),
   (bytes "xcodebuild", bytes "/usr/bin/xcodebuild"),
   (bytes "clang", bytes "/usr/bin/clang"),
   (bytes "clang++", bytes "/usr/bin/clang++")]

/-- `resolve_argv`: map a bare `argv[0]` through the fixed table. -/
def resolve_argv : List Bytes → List Bytes
  | [] => []
  | a0 :: rest =>
    match mapFind kCmdMap a0 with
    | some m => m :: rest
    | none => a0 :: rest

/-- The `replace_all` helper of `expand_vars`: scan left to right; at an
occurrence of `needle` emit `repl` and continue after the occurrence
(the replacement is not rescanned). -/
def replaceAll (needle repl : Bytes) : Bytes → Bytes
  | [] => []
  | c :: rest =>
    if h : needle ≠ [] ∧ startsWithBytes needle (c :: rest) = true then
      repl ++ replaceAll needle repl ((c :: rest).drop needle.length)
    else c :: replaceAll needle repl rest
termination_by s => s.length
decreasing_by
  · simp only [List.length_drop, List.length_cons]
    have hlen : needle.length ≠ 0 := by
      intro h0
      exact h.1 (List.eq_nil_of_length_eq_zero h0)
    omega
  · simp

/-- `expand_vars`: with a known home directory, expand a leading `~/` or a
bare `~`, then the substrings `${HOME}` and `$HOME`; otherwise a no-op. -/
def expand_vars (home s : Bytes) : Bytes :=
  if home = [] then s
  else
    let s1 := if startsWithBytes (bytes "~/") s = true then home ++ s.drop 1
              else if s = bytes "~" then home else s
    replaceAll (bytes "$HOME") home (replaceAll (bytes "$\x7bHOME\x7d") home s1)

/-- `is_denied_env_key`: keys starting with `DYLD_` or `LD_` (the two
explicit equality checks of the source are subsumed but mirrored). -/
def is_denied_env_key (k : Bytes) : Bool :=
  if startsWithBytes (bytes "DYLD_") k = true then true
  else if startsWithBytes (bytes "LD_") k = true then true
  else if k = bytes "DYLD_INSERT_LIBRARIES" then true
  else if k = bytes "LD_PRELOAD" then true
  else false

/-- The built-in command allowlist (`kAllowed`) used when no policy file is
configured. -/
def kBuiltinAllowed : List Bytes :=
  [bytes "/usr/bin/git", bytes "/usr/bin/make", bytes "/bin/bash",
   bytes "/bin/zsh", bytes "/usr/bin/python3", bytes "/usr/bin/xcodebuild",
   bytes "/usr/bin/clang", bytes "/usr/bin/clang++", bytes "/bin/pwd",
   bytes "/bin/echo", bytes "/bin/ls", bytes "/bin/rm", bytes "/bin/mkdir",
   bytes "/usr/bin/xcrun", bytes "/usr/bin/codesign", bytes "/usr/bin/sw_vers",
   bytes "/usr/bin/uname", bytes "/usr/bin/wc", bytes "/usr/bin/sed",
   bytes "/usr/bin/tee"]

/-- `cmd_allowed`.  `statExec cmd` stands for
`stat(cmd) == 0 && S_ISREG(st_mode) && (st_mode & 0111)`. -/
def cmd_allowed (cmd : Bytes) (root_real : Bytes) (policy : Option KeyPolicy)
    (written : List Bytes) (statExec : Bytes → Bool) : Bool :=
  match policy with
  | some p =>
    if cmd ∈ p.allowed_cmds then true
    else if p.allow_root_scripts = true ∧ root_real ≠ [] then
      if cmd ∈ written then false
      else if within_root cmd root_real = true then statExec cmd else false
    else false
  | none =>
    if cmd ∈ kBuiltinAllowed then true
    else if root_real ≠ [] then
      if cmd ∈ written then false
      else if within_root cmd root_real = true then statExec cmd else false
    else false

/-- Index of the last `/` in a path (`rfind('/')`). -/
def lastSlash : Bytes → Option Nat
  | [] => none
  | c :: rest =>
    match lastSlash rest with
    | some i => some (i + 1)
    | none => if c = 47 then some 0 else none

/-- The effective file mode of `safe_write_file`:
`mode & 0777`, then `&= ~07000` (a 32-bit complement), then the `0644`
substitution when zero. -/
def effectiveMode (mode : Nat) : Nat :=
  let m1 := mode &&& 511
  let m2 := m1 &&& 4294963711
  if m2 = 0 then 420 else m2

/-- `safe_write_file` up to the recorded canonical path and the mode passed
to `fchmod`: path checks, parent realpath containment, canonical
destination containment, mode masking with the executable-write gate, then
the abstracted temp-file phase.  On success returns the canonical
destination and the applied mode. -/
def safe_write_file (root_real : Bytes) (allow_exec_writes : Bool)
    (path : Bytes) (realpath : Bytes → Bytes) (low : LowWriteResult)
    (mode : Nat) : Except Bytes (Bytes × Nat) :=
  if path = [] ∨ path.headD 0 ≠ 47 then .error (bytes "path must be absolute")
  else if root_real = [] then .error (bytes "write requires --action-pack-root")
  else
    match lastSlash path with
    | none => .error (bytes "bad path")
    | some slash =>
      if slash = 0 then .error (bytes "bad path")
      else
        let parent := path.take slash
        let base := path.drop (slash + 1)
        if base = [] ∨ base.contains 47 = true then .error (bytes "bad filename")
        else
          let parent_rp := realpath parent
          if parent_rp = [] ∨ within_root parent_rp root_real = false then
            .error (bytes "bad parent dir")
          else
            let canon := parent_rp ++ [47] ++ base
            if within_root canon root_real = false then
              .error (bytes "path outside root")
            else
              let m := effectiveMode mode
              if allow_exec_writes = false ∧ m &&& 73 ≠ 0 then
                .error (bytes "executable writes forbidden")
              else
                match low with
                | .err msg => .error msg
                | .ok => .ok (canon, m)

/-- Decimal rendering of a count (`std::to_string`). -/
def natBytes (n : Nat) : Bytes := bytes (Nat.repr n)

/-- Decimal rendering of an exit code (`std::to_string(int)`). -/
def intBytes (i : Int) : Bytes := bytes (Int.repr i)

/-- One nibble to its lowercase hex character. -/
def hexDigitByte (n : Nat) : Nat := if n < 10 then 48 + n else 87 + n

/-- `hex_pack_id`: two lowercase hex characters per byte. -/
def hex_pack_id (id : Bytes) : Bytes :=
  id.foldr (fun b acc => hexDigitByte (b / 16 % 16) :: hexDigitByte (b % 16) :: acc) []

/-- The env filter of `handle_pack`: for each pack env entry, skip it when
a policy is configured and the key is not in `allowed_env`, skip it when
`is_denied_env_key`, else `emplace` it (no overwrite of an existing key)
into the map handed to every exec step. -/
def buildEnvAdd (policy : Option KeyPolicy) (acc : List (Bytes × Bytes)) :
    List (Bytes × Bytes) → List (Bytes × Bytes)
  | [] => acc
  | (k, v) :: rest =>
    let skip_policy : Bool :=
      match policy with
      | some p => ! (p.allowed_env.contains k)
      | none => false
    if skip_policy = true then buildEnvAdd policy acc rest
    else if is_denied_env_key k = true then buildEnvAdd policy acc rest
    else buildEnvAdd policy
      (if (mapFind acc k).isSome then acc else acc ++ [(k, v)]) rest

/-- A call to the process runner: everything `handle_pack` passes to
`process::run_capture`, together with the written-file set at that moment
(used by `cmd_allowed` just before the call). -/
structure Spawn where
  idx : Nat
  argv : List Bytes
  env_add : List (Bytes × Bytes)
  cwd : Bytes
  timeout_ms : Nat
  written : List Bytes
  deriving DecidableEq, Repr

/-- The cwd resolution of an exec step: empty cwd passes through, else
realpath must succeed and lie within the root. -/
def resolveCwd (root_real : Bytes) (realpath : Bytes → Bytes) (c : Bytes) :
    Except Bytes Bytes :=
  if c = [] then .ok c
  else
    let rp := realpath c
    if rp = [] then .error (bytes "bad_cwd")
    else if within_root rp root_real = false then .error (bytes "cwd_outside_root")
    else .ok rp

/-- The command resolution of an exec step: absolute paths pass through; a
relative path containing `/` is joined with the cwd, realpath-resolved and
confined to the root; a bare unmapped name is rejected. -/
def resolveCmd (root_real : Bytes) (realpath : Bytes → Bytes)
    (cwd cmd : Bytes) : Except Bytes Bytes :=
  if cmd ≠ [] ∧ cmd.headD 0 ≠ 47 then
    if cmd.contains 47 = true then
      if cwd = [] ∨ root_real = [] then .error (bytes "relative_cmd_requires_root")
      else
        let joined := cwd ++ [47] ++ cmd
        let rp := realpath joined
        if rp = [] then .error (bytes "bad_cmd_path")
        else if within_root rp root_real = false then
          .error (bytes "cmd_outside_root")
        else .ok rp
    else .error (bytes "cmd_not_allowed")
  else .ok cmd

/-- The exec transcript chunk: the `STEP i exec ...` line and the optional
STDOUT / STDERR blocks. -/
def execChunk (i : Nat) (r : CaptureResult) (d : Nat) : Bytes :=
  let line := bytes "STEP " ++ natBytes i ++ bytes " exec exit=" ++
    intBytes r.exit_code ++ bytes " dur_ms=" ++ natBytes d ++
    (if r.timed_out = true then bytes " timed_out=1" else []) ++
    (if r.error ≠ [] then bytes " error=" ++ r.error else []) ++ [10]
  let outBlk := if r.out ≠ [] then
      bytes "--- STDOUT (" ++ natBytes r.out.length ++ bytes " bytes) ---" ++
      [10] ++ r.out ++ (if r.out.getLast? ≠ some 10 then [10] else [])
    else []
  let errBlk := if r.err ≠ [] then
      bytes "--- STDERR (" ++ natBytes r.err.length ++ bytes " bytes) ---" ++
      [10] ++ r.err ++ (if r.err.getLast? ≠ some 10 then [10] else [])
    else []
  line ++ outBlk ++ errBlk

/-- The step loop of `handle_pack`: the transcript suffix after the `OK`
line, and the list of runner calls made.  `i` is the step index, `written`
the canonical paths written so far by this pack. -/
def runSteps (cfg : ServerCfg) (w : World) (policy : Option KeyPolicy)
    (env_add : List (Bytes × Bytes)) :
    List Step → Nat → List Bytes → Bytes × List Spawn
  | [], _, _ => ([], [])
  | .write wf :: rest, i, written =>
    let allow_exec : Bool :=
      match policy with
      | some p => p.allow_exec_writes
      | none => false
    let path := expand_vars w.home wf.path
    match safe_write_file cfg.root_real allow_exec path w.realpath
        (w.lowWrite i) wf.mode with
    | .error werr =>
      (bytes "STEP " ++ natBytes i ++ bytes " write ERR " ++ werr ++ [10], [])
    | .ok (canon, _m) =>
      let written2 := if canon ≠ [] then
          (if canon ∈ written then written else written ++ [canon])
        else written
      let line := bytes "STEP " ++ natBytes i ++ bytes " write OK bytes=" ++
        natBytes wf.data.length ++ bytes " path=" ++ path ++ [10]
      let rec2 := runSteps cfg w policy env_add rest (i + 1) written2
      (line ++ rec2.1, rec2.2)
  | .exec ex :: rest, i, written =>
    if ex.argv = [] then
      (bytes "STEP " ++ natBytes i ++ bytes " ERR empty argv" ++ [10], [])
    else
      let argv1 := (resolve_argv ex.argv).map (expand_vars w.home)
      let cwd0 := if ex.cwd = [] then cfg.root else ex.cwd
      match resolveCwd cfg.root_real w.realpath (expand_vars w.home cwd0) with
      | .error code =>
        (bytes "STEP " ++ natBytes i ++ bytes " ERR " ++ code ++ [10], [])
      | .ok cwd =>
        match resolveCmd cfg.root_real w.realpath cwd (argv1.headD []) with
        | .error code =>
          (bytes "STEP " ++ natBytes i ++ bytes " ERR " ++ code ++ [10], [])
        | .ok cmd =>
          if cmd_allowed cmd cfg.root_real policy written w.statExec = false then
            (bytes "STEP " ++ natBytes i ++ bytes " ERR cmd_not_allowed" ++ [10], [])
          else
            let r := w.run i
            let chunk := execChunk i r (w.dur i)
            let sp : Spawn := ⟨i, cmd :: argv1.tail, env_add, cwd, ex.timeout_ms, written⟩
            if r.ok = false then (chunk, [sp])
            else
              let rec2 := runSteps cfg w policy env_add rest (i + 1) written
              (chunk ++ rec2.1, sp :: rec2.2)

/-- The result of one `handle_pack` call: the transcript, the final
in-memory seen map, the lines appended to the seen file, and the runner
calls made. -/
structure HPOut where
  resp : Bytes
  seen : List (Bytes × Nat)
  appended : List (Bytes × Nat)
  spawns : List Spawn
  deriving DecidableEq, Repr

/-- `handle_pack`: payload decode, policy lookup, key lookup, signature
verification, time bounds (±30 s skew, `u64` arithmetic), the replay
check, then the step loop. -/
def handle_pack (seen : List (Bytes × Nat)) (have_policy : Bool)
    (policyFind : Bytes → Option KeyPolicy) (pubkeyFind : Bytes → Option Bytes)
    (cfg : ServerCfg) (w : World) (env : Envelope) : HPOut :=
  match decode_payload env.payload with
  | .error perr => ⟨bytes "ERR bad payload: " ++ perr ++ [10], seen, [], []⟩
  | .ok pack =>
    let pack_hex := hex_pack_id pack.pack_id
    let policyRes : Except Bytes (Option KeyPolicy) :=
      if have_policy = true then
        match policyFind pack.key_id with
        | some p => .ok (some p)
        | none =>
          .error (bytes "ERR policy missing for key_id: " ++ pack.key_id ++ [10])
      else .ok none
    match policyRes with
    | .error resp => ⟨resp, seen, [], []⟩
    | .ok policy =>
      match pubkeyFind pack.key_id with
      | none => ⟨bytes "ERR unknown key_id: " ++ pack.key_id ++ [10], seen, [], []⟩
      | some pub =>
        if w.verify pub env.payload env.signature = false then
          ⟨bytes "ERR signature invalid: " ++ w.verifyErr ++ [10], seen, [], []⟩
        else if pack.created_ms ≠ 0 ∧ pack.created_ms > (w.now + 30000) % 2 ^ 64 then
          ⟨bytes "ERR created_ms in future" ++ [10], seen, [], []⟩
        else if pack.expires_ms ≠ 0 ∧ w.now > (pack.expires_ms + 30000) % 2 ^ 64 then
          ⟨bytes "ERR pack expired" ++ [10], seen, [], []⟩
        else
          let proceed : List (Bytes × Nat) → HPOut := fun seen0 =>
            let seen1 := expSet seen0 pack_hex pack.expires_ms
            let env_add := buildEnvAdd policy [] pack.env
            let okLine := bytes "OK pack_id=" ++ pack_hex ++ bytes " steps=" ++
              natBytes pack.steps.length ++ [10]
            let stepOut := runSteps cfg w policy env_add pack.steps 0 []
            ⟨okLine ++ stepOut.1, seen1, [(pack_hex, pack.expires_ms)], stepOut.2⟩
          match expFind seen pack_hex with
          | some exp =>
            if exp = 0 ∨ exp > w.now then ⟨bytes "ERR replay" ++ [10], seen, [], []⟩
            else proceed (expErase seen pack_hex)
          | none => proceed seen

/-! ## C6: write mode masking -/

set_option maxRecDepth 8192 in
theorem land_mask_noop : ∀ x < 512, x &&& 4294963711 = x := by decide

theorem effectiveMode_eq (mode : Nat) :
    effectiveMode mode = (if mode &&& 511 = 0 then 420 else mode &&& 511) := by
  have hb : mode &&& 511 ≤ 511 := Nat.and_le_right
  simp only [effectiveMode]
  rw [land_mask_noop (mode &&& 511) (by omega)]

theorem swf_ok_inv {root_real path canon : Bytes} {allow_exec : Bool}
    {realpath : Bytes → Bytes} {low : LowWriteResult} {mode m : Nat}
    (h : safe_write_file root_real allow_exec path realpath low mode =
      .ok (canon, m)) :
    m = effectiveMode mode ∧ (allow_exec = false → m &&& 73 = 0) := by
  simp only [safe_write_file] at h
  repeat' split at h
  all_goals try exact Except.noConfusion h
  simp only [Except.ok.injEq, Prod.mk.injEq] at h
  obtain ⟨hcanon, hm⟩ := h
  subst hm
  constructor
  · rfl
  · intro ha
    tauto

theorem swf_execbit_rejected {root_real path : Bytes} {allow_exec : Bool}
    {realpath : Bytes → Bytes} {low : LowWriteResult} {mode : Nat}
    (hallow : allow_exec = false) (hbit : effectiveMode mode &&& 73 ≠ 0) :
    ∃ e, safe_write_file root_real allow_exec path realpath low mode =
      .error e := by
  simp only [safe_write_file]
  repeat' split
  all_goals first
    | exact ⟨_, rfl⟩
    | (exfalso; simp_all)

/-- C6: for every `WriteFileStep` accepted by `safe_write_file`, the mode
passed to `fchmod` equals `(mode & 0o777)` (the setuid/setgid/sticky clear
is a no-op after the `0o777` mask) with `0o644` substituted when zero; and
when `allow_exec_writes` is false an effective mode with any execute bit
makes the step fail (with `executable writes forbidden` once the path
checks pass), so no accepted write carries an execute bit. -/
theorem C6_write_mode_policy (root_real : Bytes) (allow_exec : Bool)
    (path : Bytes) (realpath : Bytes → Bytes) (low : LowWriteResult)
    (mode : Nat) :
    (∀ canon m,
      safe_write_file root_real allow_exec path realpath low mode = .ok (canon, m) →
      m = (if mode &&& 511 = 0 then 420 else mode &&& 511) ∧
      (allow_exec = false → m &&& 73 = 0)) ∧
    (allow_exec = false →
      (if mode &&& 511 = 0 then 420 else mode &&& 511) &&& 73 ≠ 0 →
      ∃ e, safe_write_file root_real allow_exec path realpath low mode =
        .error e) := by
  constructor
  · intro canon m h
    obtain ⟨hm, hexec⟩ := swf_ok_inv h
    exact ⟨by rw [hm, effectiveMode_eq], hexec⟩
  · intro hallow hbit
    exact swf_execbit_rejected hallow (by rwa [effectiveMode_eq])

theorem C6_write_mode_policy_witness :
    ((493 : Nat) = (if 493 &&& 511 = 0 then 420 else (493 : Nat) &&& 511) ∧
      (true = false → (493 : Nat) &&& 73 = 0)) ∧
    (∃ e, safe_write_file (bytes "/sb") false (bytes "/sb/f") (fun p => p)
      .ok 493 = .error e) :=
  ⟨(C6_write_mode_policy (bytes "/sb") true (bytes "/sb/f") (fun p => p)
      .ok 493).1 (bytes "/sb/f") 493 (by decide),
   (C6_write_mode_policy (bytes "/sb") false (bytes "/sb/f") (fun p => p)
      .ok 493).2 rfl (by decide)⟩

/-! ## C5: time-bound checks, C3: replay check -/

theorem bytes_OK_packid_cons :
    bytes "OK pack_id=" = 79 :: bytes "K pack_id=" := by rfl

theorem okResp_ne {msg : Bytes} (x : Bytes) (hmsg : msg.head? = some 69) :
    bytes "OK pack_id=" ++ x ≠ msg := by
  intro h
  have hh : (bytes "OK pack_id=" ++ x).head? = msg.head? := congrArg List.head? h
  rw [hmsg, bytes_OK_packid_cons] at hh
  simp only [List.cons_append, List.head?_cons, Option.some.injEq] at hh
  exact absurd hh (by decide)

theorem startsOK (x : Bytes) :
    startsWithBytes (bytes "OK") (bytes "OK pack_id=" ++ x) = true := by
  rw [bytes_OK_packid_cons]
  simp only [startsWithBytes, List.cons_append, decide_eq_true_eq]
  rfl

/-- C5: for a pack that decodes, finds its policy and key, and passes
signature verification, `handle_pack` answers `ERR created_ms in future`
exactly when `created_ms ≠ 0` and `created_ms > now + 30 000`, and
otherwise answers `ERR pack expired` exactly when `expires_ms ≠ 0` and
`now > expires_ms + 30 000`; zero time stamps disable the two checks.
(The `u64` additions do not wrap under the stated bounds.) -/
theorem C5_time_bound_checks (seen : List (Bytes × Nat)) (have_policy : Bool)
    (policyFind : Bytes → Option KeyPolicy) (pubkeyFind : Bytes → Option Bytes)
    (cfg : ServerCfg) (w : World) (e : Envelope) (pack : Pack) (pub : Bytes)
    (hdec : decode_payload e.payload = .ok pack)
    (hpol : have_policy = true → (policyFind pack.key_id).isSome = true)
    (hkey : pubkeyFind pack.key_id = some pub)
    (hver : w.verify pub e.payload e.signature = true)
    (hnow : w.now + 30000 < 2 ^ 64)
    (hexp : pack.expires_ms + 30000 < 2 ^ 64) :
    ((handle_pack seen have_policy policyFind pubkeyFind cfg w e).resp =
        bytes "ERR created_ms in future" ++ [10] ↔
      pack.created_ms ≠ 0 ∧ pack.created_ms > w.now + 30000) ∧
    (¬ (pack.created_ms ≠ 0 ∧ pack.created_ms > w.now + 30000) →
      ((handle_pack seen have_policy policyFind pubkeyFind cfg w e).resp =
          bytes "ERR pack expired" ++ [10] ↔
        pack.expires_ms ≠ 0 ∧ w.now > pack.expires_ms + 30000)) := by
  have hmod1 : (w.now + 30000) % 2 ^ 64 = w.now + 30000 := Nat.mod_eq_of_lt hnow
  have hmod2 : (pack.expires_ms + 30000) % 2 ^ 64 = pack.expires_ms + 30000 :=
    Nat.mod_eq_of_lt hexp
  have hpolred : (if have_policy = true then
      match policyFind pack.key_id with
      | some p => Except.ok (ε := Bytes) (some p)
      | none => .error (bytes "ERR policy missing for key_id: " ++ pack.key_id ++ [10])
      else .ok none) = .ok (if have_policy = true then policyFind pack.key_id else none) := by
    by_cases hhp : have_policy = true
    · obtain ⟨p0, hp0⟩ := Option.isSome_iff_exists.mp (hpol hhp)
      simp [hhp, hp0]
    · simp [hhp]
  have hverneg : ¬ (w.verify pub e.payload e.signature = false) := by simp [hver]
  simp only [handle_pack, hdec, hpolred, hkey, if_neg hverneg]
  simp only [hmod1, hmod2]
  by_cases hc : pack.created_ms ≠ 0 ∧ pack.created_ms > w.now + 30000
  · simp only [if_pos hc]
    exact ⟨by simpa using hc, fun hnc => absurd hc hnc⟩
  · simp only [if_neg hc]
    refine ⟨?_, fun _ => ?_⟩
    · by_cases he : pack.expires_ms ≠ 0 ∧ w.now > pack.expires_ms + 30000
      · simp only [if_pos he]
        constructor
        · intro habs
          exact absurd habs (by decide)
        · intro hcc
          exact absurd hcc hc
      · simp only [if_neg he]
        constructor
        · cases hseen : expFind seen (hex_pack_id pack.pack_id) with
          | some exp =>
            simp only [hseen]
            by_cases hrep : exp = 0 ∨ exp > w.now
            · simp only [if_pos hrep]
              intro habs
              exact absurd habs (by decide)
            · simp only [if_neg hrep]
              intro habs
              exact absurd (by simpa [List.append_assoc] using habs)
                (okResp_ne _ (by decide))
          | none =>
            simp only [hseen]
            intro habs
            exact absurd (by simpa [List.append_assoc] using habs)
              (okResp_ne _ (by decide))
        · intro hcc
          exact absurd hcc hc
    · by_cases he : pack.expires_ms ≠ 0 ∧ w.now > pack.expires_ms + 30000
      · simp only [if_pos he]
        simpa using he
      · simp only [if_neg he]
        constructor
        · cases hseen : expFind seen (hex_pack_id pack.pack_id) with
          | some exp =>
            simp only [hseen]
            by_cases hrep : exp = 0 ∨ exp > w.now
            · simp only [if_pos hrep]
              intro habs
              exact absurd habs (by decide)
            · simp only [if_neg hrep]
              intro habs
              exact absurd (by simpa [List.append_assoc] using habs)
                (okResp_ne _ (by decide))
          | none =>
            simp only [hseen]
            intro habs
            exact absurd (by simpa [List.append_assoc] using habs)
              (okResp_ne _ (by decide))
        · intro hee
          exact absurd hee he

/-- A pack, payload, receiver configuration and world used to instantiate
the `handle_pack` theorems at concrete inputs. -/
def exPack : Pack :=
  ⟨bytes "k", 50, 100, List.replicate 16 0, [(bytes "FOO", bytes "1")],
   [.exec ⟨[bytes "/bin/echo"], [], 0⟩]⟩

def exPayload : Bytes := (encode_payload exPack).toOption.getD []

def exEnvelope : Envelope := ⟨exPayload, [1]⟩

def exCfg : ServerCfg := ⟨bytes "/sb", bytes "/sb", 0⟩

def exWorld : World :=
  ⟨[], fun p => p, fun _ => false, fun _ => .ok,
   fun _ => ⟨0, true, false, [], [], []⟩, fun _ => 1, 40,
   fun _ _ _ => true, []⟩

def exPubkeyFind : Bytes → Option Bytes := fun _ => some (bytes "PK")

def exPolicyFind : Bytes → Option KeyPolicy := fun _ => none

theorem C5_time_bound_checks_witness :
    (decode_payload exEnvelope.payload = .ok exPack ∧
     exPubkeyFind exPack.key_id = some (bytes "PK") ∧
     exWorld.verify (bytes "PK") exEnvelope.payload exEnvelope.signature = true ∧
     exWorld.now + 30000 < 2 ^ 64 ∧ exPack.expires_ms + 30000 < 2 ^ 64) ∧
    (((handle_pack [] false exPolicyFind exPubkeyFind exCfg exWorld exEnvelope).resp =
        bytes "ERR created_ms in future" ++ [10] ↔
      exPack.created_ms ≠ 0 ∧ exPack.created_ms > exWorld.now + 30000) ∧
    (¬ (exPack.created_ms ≠ 0 ∧ exPack.created_ms > exWorld.now + 30000) →
      ((handle_pack [] false exPolicyFind exPubkeyFind exCfg exWorld exEnvelope).resp =
          bytes "ERR pack expired" ++ [10] ↔
        exPack.expires_ms ≠ 0 ∧ exWorld.now > exPack.expires_ms + 30000))) :=
  ⟨⟨by decide, rfl, rfl, by decide, by decide⟩,
   C5_time_bound_checks [] false exPolicyFind exPubkeyFind exCfg exWorld
     exEnvelope exPack (bytes "PK") (by decide) (by decide) rfl rfl
     (by decide) (by decide)⟩

theorem expFind_expSet_self (m : List (Bytes × Nat)) (k : Bytes) (v : Nat) :
    expFind (expSet m k v) k = some v := by
  induction m with
  | nil => simp [expSet, expFind]
  | cons kv rest ih =>
    by_cases hk : kv.1 = k
    · simp [expSet, expFind, hk]
    · simp [expSet, expFind, hk, ih]

/-- C3: once a pack decodes, finds its policy and key, passes verification
and the time checks, `handle_pack` answers `ERR replay` exactly when the
in-memory seen map holds its `pack_id` hex with expiry `0` or an expiry
strictly after `now`; otherwise the (absent or expired) entry is
overwritten with the pack's `expires_ms`, the same line is appended to the
seen file, and execution proceeds with an `OK` transcript.  Hence an entry
with expiry `0` rejects every later delivery and a nonzero past expiry may
be reused. -/
theorem C3_replay_check (seen : List (Bytes × Nat)) (have_policy : Bool)
    (policyFind : Bytes → Option KeyPolicy) (pubkeyFind : Bytes → Option Bytes)
    (cfg : ServerCfg) (w : World) (e : Envelope) (pack : Pack) (pub : Bytes)
    (hdec : decode_payload e.payload = .ok pack)
    (hpol : have_policy = true → (policyFind pack.key_id).isSome = true)
    (hkey : pubkeyFind pack.key_id = some pub)
    (hver : w.verify pub e.payload e.signature = true)
    (htime1 : ¬ (pack.created_ms ≠ 0 ∧ pack.created_ms > (w.now + 30000) % 2 ^ 64))
    (htime2 : ¬ (pack.expires_ms ≠ 0 ∧ w.now > (pack.expires_ms + 30000) % 2 ^ 64)) :
    ((handle_pack seen have_policy policyFind pubkeyFind cfg w e).resp =
        bytes "ERR replay" ++ [10] ↔
      ∃ exp, expFind seen (hex_pack_id pack.pack_id) = some exp ∧
        (exp = 0 ∨ exp > w.now)) ∧
    (¬ (∃ exp, expFind seen (hex_pack_id pack.pack_id) = some exp ∧
        (exp = 0 ∨ exp > w.now)) →
      expFind (handle_pack seen have_policy policyFind pubkeyFind cfg w e).seen
          (hex_pack_id pack.pack_id) = some pack.expires_ms ∧
      (handle_pack seen have_policy policyFind pubkeyFind cfg w e).appended =
        [(hex_pack_id pack.pack_id, pack.expires_ms)] ∧
      startsWithBytes (bytes "OK")
        (handle_pack seen have_policy policyFind pubkeyFind cfg w e).resp = true) := by
  have hpolred : (if have_policy = true then
      match policyFind pack.key_id with
      | some p => Except.ok (ε := Bytes) (some p)
      | none => .error (bytes "ERR policy missing for key_id: " ++ pack.key_id ++ [10])
      else .ok none) = .ok (if have_policy = true then policyFind pack.key_id else none) := by
    by_cases hhp : have_policy = true
    · obtain ⟨p0, hp0⟩ := Option.isSome_iff_exists.mp (hpol hhp)
      simp [hhp, hp0]
    · simp [hhp]
  have hverneg : ¬ (w.verify pub e.payload e.signature = false) := by simp [hver]
  simp only [handle_pack, hdec, hpolred, hkey, if_neg hverneg, if_neg htime1,
    if_neg htime2]
  cases hseen : expFind seen (hex_pack_id pack.pack_id) with
  | some exp =>
    by_cases hrep : exp = 0 ∨ exp > w.now
    · simp only [if_pos hrep]
      constructor
      · constructor
        · intro _
          exact ⟨exp, rfl, hrep⟩
        · intro _
          trivial
      · intro hno
        exact absurd ⟨exp, rfl, hrep⟩ hno
    · simp only [if_neg hrep]
      constructor
      · constructor
        · intro habs
          exact absurd (by simpa [List.append_assoc] using habs)
            (okResp_ne _ (by decide))
        · intro hex2
          obtain ⟨exp2, hfind2, hlive2⟩ := hex2
          injection hfind2 with h2
          subst h2
          exact absurd hlive2 hrep
      · intro _
        refine ⟨expFind_expSet_self _ _ _, by trivial, ?_⟩
        simp only [List.append_assoc, startsOK]
  | none =>
    constructor
    · constructor
      · intro habs
        exact absurd (by simpa [List.append_assoc] using habs)
          (okResp_ne _ (by decide))
      · intro hex2
        obtain ⟨exp2, hfind2, _⟩ := hex2
        exact Option.noConfusion hfind2
    · intro _
      refine ⟨expFind_expSet_self _ _ _, by trivial, ?_⟩
      simp only [List.append_assoc, startsOK]

theorem C3_replay_check_witness :
    (decode_payload exEnvelope.payload = .ok exPack ∧
     exPubkeyFind exPack.key_id = some (bytes "PK") ∧
     exWorld.verify (bytes "PK") exEnvelope.payload exEnvelope.signature = true ∧
     ¬ (exPack.created_ms ≠ 0 ∧
        exPack.created_ms > (exWorld.now + 30000) % 2 ^ 64) ∧
     ¬ (exPack.expires_ms ≠ 0 ∧
        exWorld.now > (exPack.expires_ms + 30000) % 2 ^ 64)) ∧
    (((handle_pack [(hex_pack_id exPack.pack_id, 10)] false exPolicyFind
        exPubkeyFind exCfg exWorld exEnvelope).resp = bytes "ERR replay" ++ [10] ↔
      ∃ exp, expFind [(hex_pack_id exPack.pack_id, 10)]
          (hex_pack_id exPack.pack_id) = some exp ∧ (exp = 0 ∨ exp > exWorld.now)) ∧
    (¬ (∃ exp, expFind [(hex_pack_id exPack.pack_id, 10)]
          (hex_pack_id exPack.pack_id) = some exp ∧ (exp = 0 ∨ exp > exWorld.now)) →
      expFind (handle_pack [(hex_pack_id exPack.pack_id, 10)] false exPolicyFind
          exPubkeyFind exCfg exWorld exEnvelope).seen (hex_pack_id exPack.pack_id) =
        some exPack.expires_ms ∧
      (handle_pack [(hex_pack_id exPack.pack_id, 10)] false exPolicyFind
          exPubkeyFind exCfg exWorld exEnvelope).appended =
        [(hex_pack_id exPack.pack_id, exPack.expires_ms)] ∧
      startsWithBytes (bytes "OK")
        (handle_pack [(hex_pack_id exPack.pack_id, 10)] false exPolicyFind
          exPubkeyFind exCfg exWorld exEnvelope).resp = true)) :=
  ⟨⟨by decide, rfl, rfl, by decide, by decide⟩,
   C3_replay_check [(hex_pack_id exPack.pack_id, 10)] false exPolicyFind
     exPubkeyFind exCfg exWorld exEnvelope exPack (bytes "PK") (by decide)
     (by decide) rfl rfl (by decide) (by decide)⟩

/-! ## C1: command allowlist, C4: environment hygiene -/

theorem runSteps_spawn_inv (cfg : ServerCfg) (w : World)
    (policy : Option KeyPolicy) (env_add : List (Bytes × Bytes)) :
    ∀ (steps : List Step) (i : Nat) (written : List Bytes) (s : Spawn),
      s ∈ (runSteps cfg w policy env_add steps i written).2 →
      cmd_allowed (s.argv.headD []) cfg.root_real policy s.written w.statExec = true ∧
      s.env_add = env_add := by
  intro steps
  induction steps with
  | nil =>
    intro i written s hs
    simp [runSteps] at hs
  | cons st rest ih =>
    intro i written s hs
    match st with
    | .write wf =>
      simp only [runSteps] at hs
      split at hs
      · simp at hs
      · simp only at hs
        exact ih _ _ s hs
    | .exec ex =>
      simp only [runSteps] at hs
      split at hs
      · simp at hs
      · split at hs
        · simp at hs
        · split at hs
          · simp at hs
          · split at hs
            · simp at hs
            · next hallowed =>
              split at hs
              · simp only [List.mem_singleton] at hs
                subst hs
                refine ⟨by simpa using hallowed, rfl⟩
              · simp only [List.mem_cons] at hs
                rcases hs with hs | hs
                · subst hs
                  refine ⟨by simpa using hallowed, rfl⟩
                · exact ih _ _ s hs

theorem cmd_allowed_policy_char {cmd root_real : Bytes} {p : KeyPolicy}
    {written : List Bytes} {statExec : Bytes → Bool}
    (h : cmd_allowed cmd root_real (some p) written statExec = true) :
    cmd ∈ p.allowed_cmds ∨
      (p.allow_root_scripts = true ∧ root_real ≠ [] ∧ cmd ∉ written ∧
       within_root cmd root_real = true ∧ statExec cmd = true) := by
  simp only [cmd_allowed] at h
  split at h
  · left
    assumption
  · split at h
    · next hguard =>
      split at h
      · exact absurd h (by decide)
      · next hnw =>
        split at h
        · next hwr => exact Or.inr ⟨hguard.1, hguard.2, hnw, hwr, h⟩
        · exact absurd h (by decide)
    · exact absurd h (by decide)

theorem cmd_allowed_builtin_char {cmd root_real : Bytes}
    {written : List Bytes} {statExec : Bytes → Bool}
    (h : cmd_allowed cmd root_real none written statExec = true) :
    cmd ∈ kBuiltinAllowed ∨
      (root_real ≠ [] ∧ cmd ∉ written ∧
       within_root cmd root_real = true ∧ statExec cmd = true) := by
  simp only [cmd_allowed] at h
  split at h
  · left
    assumption
  · split at h
    · next hguard =>
      split at h
      · exact absurd h (by decide)
      · next hnw =>
        split at h
        · next hwr => exact Or.inr ⟨hguard, hnw, hwr, h⟩
        · exact absurd h (by decide)
    · exact absurd h (by decide)

theorem cmd_allowed_written_false {cmd root_real : Bytes}
    {pol : Option KeyPolicy} {written : List Bytes} {statExec : Bytes → Bool}
    (hw : cmd ∈ written)
    (hpol : ∀ p, pol = some p → cmd ∉ p.allowed_cmds)
    (hbuiltin : pol = none → cmd ∉ kBuiltinAllowed) :
    cmd_allowed cmd root_real pol written statExec = false := by
  match pol with
  | some p =>
    simp only [cmd_allowed]
    rw [if_neg (hpol p rfl)]
    split
    · simp [hw]
    · rfl
  | none =>
    simp only [cmd_allowed]
    rw [if_neg (hbuiltin rfl)]
    split
    · simp [hw]
    · rfl

theorem runSteps_rejects_disallowed (cfg : ServerCfg) (w : World)
    (pol : Option KeyPolicy) (env_add : List (Bytes × Bytes)) (ex : ExecStep)
    (rest : List Step) (i : Nat) (written : List Bytes) (cwd cmd : Bytes)
    (hargv : ¬ ex.argv = [])
    (hcwd : resolveCwd cfg.root_real w.realpath
      (expand_vars w.home (if ex.cwd = [] then cfg.root else ex.cwd)) = .ok cwd)
    (hcmd : resolveCmd cfg.root_real w.realpath cwd
      (((resolve_argv ex.argv).map (expand_vars w.home)).headD []) = .ok cmd)
    (hdis : cmd_allowed cmd cfg.root_real pol written w.statExec = false) :
    runSteps cfg w pol env_add (.exec ex :: rest) i written =
      (bytes "STEP " ++ natBytes i ++ bytes " ERR cmd_not_allowed" ++ [10], []) := by
  simp only [runSteps, if_neg hargv, hcwd, hcmd, hdis]
  simp

/-- C1: every exec step that reaches the process runner carries a resolved
`argv[0]` that the allowlist admits: without a policy it is in the built-in
allowlist or satisfies the root-script rule (under the realpath-resolved
root, a regular file with an execute bit, not written by this pack); with a
policy it is in `allowed_cmds` or satisfies the same rule gated on
`allow_root_scripts`.  In particular (last two conjuncts) a resolved
command equal to a canonical path written by this pack that is not in the
allowlist fails `cmd_allowed`, and the step loop then answers
`STEP i ERR cmd_not_allowed` without spawning. -/
theorem C1_exec_cmd_allowlist (seen : List (Bytes × Nat)) (have_policy : Bool)
    (policyFind : Bytes → Option KeyPolicy) (pubkeyFind : Bytes → Option Bytes)
    (cfg : ServerCfg) (w : World) (e : Envelope) (s : Spawn)
    (hs : s ∈ (handle_pack seen have_policy policyFind pubkeyFind cfg w e).spawns) :
    ((have_policy = false →
      s.argv.headD [] ∈ kBuiltinAllowed ∨
      (cfg.root_real ≠ [] ∧ s.argv.headD [] ∉ s.written ∧
       within_root (s.argv.headD []) cfg.root_real = true ∧
       w.statExec (s.argv.headD []) = true)) ∧
    (∀ pack p, have_policy = true → decode_payload e.payload = .ok pack →
      policyFind pack.key_id = some p →
      s.argv.headD [] ∈ p.allowed_cmds ∨
      (p.allow_root_scripts = true ∧ cfg.root_real ≠ [] ∧
       s.argv.headD [] ∉ s.written ∧
       within_root (s.argv.headD []) cfg.root_real = true ∧
       w.statExec (s.argv.headD []) = true))) ∧
    ((∀ (pol : Option KeyPolicy) (cmd : Bytes) (written2 : List Bytes),
      cmd ∈ written2 → (∀ p, pol = some p → cmd ∉ p.allowed_cmds) →
      (pol = none → cmd ∉ kBuiltinAllowed) →
      cmd_allowed cmd cfg.root_real pol written2 w.statExec = false) ∧
    (∀ (pol : Option KeyPolicy) (env_add2 : List (Bytes × Bytes)) (ex : ExecStep)
       (rest : List Step) (i : Nat) (written2 : List Bytes) (cwd cmd : Bytes),
      ¬ ex.argv = [] →
      resolveCwd cfg.root_real w.realpath
        (expand_vars w.home (if ex.cwd = [] then cfg.root else ex.cwd)) = .ok cwd →
      resolveCmd cfg.root_real w.realpath cwd
        (((resolve_argv ex.argv).map (expand_vars w.home)).headD []) = .ok cmd →
      cmd_allowed cmd cfg.root_real pol written2 w.statExec = false →
      runSteps cfg w pol env_add2 (.exec ex :: rest) i written2 =
        (bytes "STEP " ++ natBytes i ++ bytes " ERR cmd_not_allowed" ++ [10], []))) := by
  refine ⟨?_, fun pol cmd written2 hw hp hb => cmd_allowed_written_false hw hp hb,
    fun pol env_add2 ex rest i written2 cwd cmd h1 h2 h3 h4 =>
      runSteps_rejects_disallowed cfg w pol env_add2 ex rest i written2 cwd cmd
        h1 h2 h3 h4⟩
  simp only [handle_pack] at hs
  split at hs
  · simp at hs
  · next pack0 hdec0 =>
    split at hs
    · simp at hs
    · next policy hpol0 =>
      split at hs
      · simp at hs
      · split at hs
        · simp at hs
        · split at hs
          · simp at hs
          · split at hs
            · simp at hs
            · split at hs
              · split at hs
                · simp at hs
                · obtain ⟨hcmd, _⟩ := runSteps_spawn_inv cfg w policy _ _ _ _ s hs
                  constructor
                  · intro hhp
                    subst hhp
                    simp only [Bool.false_eq_true, if_false] at hpol0
                    have hpnone : policy = none := by
                      injection hpol0 with h0
                      exact h0.symm
                    subst hpnone
                    exact cmd_allowed_builtin_char hcmd
                  · intro pack p hhp hdec hfind
                    subst hhp
                    rw [hdec0] at hdec
                    injection hdec with hpk
                    subst hpk
                    simp only [if_true, hfind] at hpol0
                    have hpsome : policy = some p := by
                      injection hpol0 with h0
                      exact h0.symm
                    subst hpsome
                    exact cmd_allowed_policy_char hcmd
              · obtain ⟨hcmd, _⟩ := runSteps_spawn_inv cfg w policy _ _ _ _ s hs
                constructor
                · intro hhp
                  subst hhp
                  simp only [Bool.false_eq_true, if_false] at hpol0
                  have hpnone : policy = none := by
                    injection hpol0 with h0
                    exact h0.symm
                  subst hpnone
                  exact cmd_allowed_builtin_char hcmd
                · intro pack p hhp hdec hfind
                  subst hhp
                  rw [hdec0] at hdec
                  injection hdec with hpk
                  subst hpk
                  simp only [if_true, hfind] at hpol0
                  have hpsome : policy = some p := by
                    injection hpol0 with h0
                    exact h0.symm
                  subst hpsome
                  exact cmd_allowed_policy_char hcmd

/-- The runner call made by `handle_pack` on the example inputs. -/
def exSpawn : Spawn :=
  ⟨0, [bytes "/bin/echo"], [(bytes "FOO", bytes "1")], bytes "/sb", 0, []⟩

theorem C1_exec_cmd_allowlist_witness :
    exSpawn ∈ (handle_pack [] false exPolicyFind exPubkeyFind exCfg exWorld
        exEnvelope).spawns ∧
    (((false = false →
      exSpawn.argv.headD [] ∈ kBuiltinAllowed ∨
      (exCfg.root_real ≠ [] ∧ exSpawn.argv.headD [] ∉ exSpawn.written ∧
       within_root (exSpawn.argv.headD []) exCfg.root_real = true ∧
       exWorld.statExec (exSpawn.argv.headD []) = true)) ∧
    (∀ pack p, false = true → decode_payload exEnvelope.payload = .ok pack →
      exPolicyFind pack.key_id = some p →
      exSpawn.argv.headD [] ∈ p.allowed_cmds ∨
      (p.allow_root_scripts = true ∧ exCfg.root_real ≠ [] ∧
       exSpawn.argv.headD [] ∉ exSpawn.written ∧
       within_root (exSpawn.argv.headD []) exCfg.root_real = true ∧
       exWorld.statExec (exSpawn.argv.headD []) = true))) ∧
    ((∀ (pol : Option KeyPolicy) (cmd : Bytes) (written2 : List Bytes),
      cmd ∈ written2 → (∀ p, pol = some p → cmd ∉ p.allowed_cmds) →
      (pol = none → cmd ∉ kBuiltinAllowed) →
      cmd_allowed cmd exCfg.root_real pol written2 exWorld.statExec = false) ∧
    (∀ (pol : Option KeyPolicy) (env_add2 : List (Bytes × Bytes)) (ex : ExecStep)
       (rest : List Step) (i : Nat) (written2 : List Bytes) (cwd cmd : Bytes),
      ¬ ex.argv = [] →
      resolveCwd exCfg.root_real exWorld.realpath
        (expand_vars exWorld.home (if ex.cwd = [] then exCfg.root else ex.cwd)) =
          .ok cwd →
      resolveCmd exCfg.root_real exWorld.realpath cwd
        (((resolve_argv ex.argv).map (expand_vars exWorld.home)).headD []) =
          .ok cmd →
      cmd_allowed cmd exCfg.root_real pol written2 exWorld.statExec = false →
      runSteps exCfg exWorld pol env_add2 (.exec ex :: rest) i written2 =
        (bytes "STEP " ++ natBytes i ++ bytes " ERR cmd_not_allowed" ++ [10],
         [])))) :=
  ⟨by decide,
   C1_exec_cmd_allowlist [] false exPolicyFind exPubkeyFind exCfg exWorld
     exEnvelope exSpawn (by decide)⟩

theorem buildEnvAdd_inv (policy : Option KeyPolicy)
    (env : List (Bytes × Bytes)) :
    ∀ acc, (∀ kv ∈ acc, is_denied_env_key kv.1 = false ∧
        (∀ p, policy = some p → kv.1 ∈ p.allowed_env)) →
      ∀ kv ∈ buildEnvAdd policy acc env,
        is_denied_env_key kv.1 = false ∧
        (∀ p, policy = some p → kv.1 ∈ p.allowed_env) := by
  induction env with
  | nil =>
    intro acc hacc kv hkv
    exact hacc kv hkv
  | cons e0 rest ih =>
    intro acc hacc kv hkv
    obtain ⟨k, v⟩ := e0
    simp only [buildEnvAdd] at hkv
    split at hkv
    · exact ih acc hacc kv hkv
    · split at hkv
      · exact ih acc hacc kv hkv
      · next hskip hden =>
        refine ih _ ?_ kv hkv
        intro kv2 hkv2
        split at hkv2
        · exact hacc kv2 hkv2
        · simp only [List.mem_append, List.mem_singleton] at hkv2
          rcases hkv2 with hkv2 | hkv2
          · exact hacc kv2 hkv2
          · subst hkv2
            refine ⟨by simpa using hden, ?_⟩
            intro p hp
            subst hp
            simpa using hskip

/-- C4: the environment map handed to every exec step of a pack contains no
key starting with `DYLD_` or `LD_`, and when a policy is configured for the
pack's key every forwarded key is in the policy's `allowed_env`. -/
theorem C4_env_hygiene (seen : List (Bytes × Nat)) (have_policy : Bool)
    (policyFind : Bytes → Option KeyPolicy) (pubkeyFind : Bytes → Option Bytes)
    (cfg : ServerCfg) (w : World) (e : Envelope) (s : Spawn) (k v : Bytes)
    (hs : s ∈ (handle_pack seen have_policy policyFind pubkeyFind cfg w e).spawns)
    (hkv : (k, v) ∈ s.env_add) :
    startsWithBytes (bytes "DYLD_") k = false ∧
    startsWithBytes (bytes "LD_") k = false ∧
    (∀ pack p, have_policy = true → decode_payload e.payload = .ok pack →
      policyFind pack.key_id = some p → k ∈ p.allowed_env) := by
  simp only [handle_pack] at hs
  split at hs
  · simp at hs
  · next pack0 hdec0 =>
    split at hs
    · simp at hs
    · next policy hpol0 =>
      split at hs
      · simp at hs
      · split at hs
        · simp at hs
        · split at hs
          · simp at hs
          · split at hs
            · simp at hs
            · have main : s.env_add = buildEnvAdd policy [] pack0.env →
                  startsWithBytes (bytes "DYLD_") k = false ∧
                  startsWithBytes (bytes "LD_") k = false ∧
                  (∀ pack p, have_policy = true →
                    decode_payload e.payload = .ok pack →
                    policyFind pack.key_id = some p → k ∈ p.allowed_env) := by
                intro henv
                have hprop := buildEnvAdd_inv policy pack0.env []
                  (by intro kv hkv2; simp at hkv2) (k, v) (henv ▸ hkv)
                obtain ⟨hden, hpol2⟩ := hprop
                have hden2 : startsWithBytes (bytes "DYLD_") k = false ∧
                    startsWithBytes (bytes "LD_") k = false := by
                  simp only [is_denied_env_key] at hden
                  constructor
                  · by_contra hc
                    simp only [Bool.not_eq_false] at hc
                    simp [hc] at hden
                  · by_contra hc
                    simp only [Bool.not_eq_false] at hc
                    by_cases hd : startsWithBytes (bytes "DYLD_") k = true
                    · simp [hd] at hden
                    · simp [hd, hc] at hden
                refine ⟨hden2.1, hden2.2, ?_⟩
                intro pack p hhp hdec hfind
                subst hhp
                rw [hdec0] at hdec
                injection hdec with hpk
                subst hpk
                simp only [if_true, hfind] at hpol0
                have hpsome : policy = some p := by
                  injection hpol0 with h0
                  exact h0.symm
                exact hpol2 p hpsome
              split at hs
              · split at hs
                · simp at hs
                · obtain ⟨_, henv⟩ := runSteps_spawn_inv cfg w policy _ _ _ _ s hs
                  exact main henv
              · obtain ⟨_, henv⟩ := runSteps_spawn_inv cfg w policy _ _ _ _ s hs
                exact main henv

theorem C4_env_hygiene_witness :
    (exSpawn ∈ (handle_pack [] false exPolicyFind exPubkeyFind exCfg exWorld
        exEnvelope).spawns ∧
     (bytes "FOO", bytes "1") ∈ exSpawn.env_add) ∧
    (startsWithBytes (bytes "DYLD_") (bytes "FOO") = false ∧
     startsWithBytes (bytes "LD_") (bytes "FOO") = false ∧
     (∀ pack p, false = true → decode_payload exEnvelope.payload = .ok pack →
       exPolicyFind pack.key_id = some p → bytes "FOO" ∈ p.allowed_env)) :=
  ⟨⟨by decide, by decide⟩,
   C4_env_hygiene [] false exPolicyFind exPubkeyFind exCfg exWorld exEnvelope
     exSpawn (bytes "FOO") (bytes "1") (by decide) (by decide)⟩

/-! ## Script compiler (`compile_script`, with `strings::trim` and
`split_ws`) -/

/-- The whitespace set of `strings::trim` (space, tab, newline, CR). -/
def isTrimWS (c : Nat) : Bool := c = 32 ∨ c = 9 ∨ c = 10 ∨ c = 13

/-- `strings::trim`: strip leading then trailing whitespace. -/
def trim (s : Bytes) : Bytes :=
  (((s.dropWhile isTrimWS).reverse.dropWhile isTrimWS).reverse)

theorem length_dropWhile_le (p : Nat → Bool) (s : Bytes) :
    (s.dropWhile p).length ≤ s.length := by
  induction s with
  | nil => simp [List.dropWhile]
  | cons c rest ih =>
    simp only [List.dropWhile]
    split
    · simp only [List.length_cons]
      omega
    · simp

/-- The `find('\n')` line loop of `compile_script`: split on newlines (the
terminator is consumed, a trailing `\r` is stripped per line, a trailing
newline produces no empty final line). -/
def splitLines (s : Bytes) : List Bytes :=
  if s = [] then []
  else
    let line := s.takeWhile (fun c => ! (c == 10))
    let rest := (s.dropWhile (fun c => ! (c == 10))).drop 1
    let line2 := if line.getLast? = some 13 then line.dropLast else line
    line2 :: splitLines rest
termination_by s.length
decreasing_by
  have h1 : (s.dropWhile (fun c => ! (c == 10))).length ≤ s.length :=
    length_dropWhile_le _ _
  have h2 : s.length ≠ 0 := by
    intro h0
    exact (by assumption : ¬ s = []) (List.eq_nil_of_length_eq_zero h0)
  simp only [List.length_drop]
  omega

/-- Append the pending token when nonempty (the `flush` lambda). -/
def flushTok (cur : Bytes) (acc : List Bytes) : List Bytes :=
  if cur = [] then acc else acc ++ [cur]

/-- The quote- and escape-aware tokenizer loop of `split_ws`. -/
def split_ws_go : Bytes → Bool → Nat → Bytes → List Bytes → List Bytes
  | [], _, _, cur, acc => flushTok cur acc
  | c :: rest, in_quote, quote, cur, acc =>
    if in_quote = false ∧ (c = 32 ∨ c = 9) then
      split_ws_go rest false quote [] (flushTok cur acc)
    else if in_quote = false ∧ (c = 34 ∨ c = 39) then
      split_ws_go rest true c cur acc
    else if in_quote = true ∧ c = quote then
      split_ws_go rest false 0 cur acc
    else if c = 92 then
      match rest with
      | c2 :: rest2 => split_ws_go rest2 in_quote quote (cur ++ [c2]) acc
      | [] => split_ws_go [] in_quote quote (cur ++ [c]) acc
    else
      split_ws_go rest in_quote quote (cur ++ [c]) acc

/-- `split_ws`. -/
def split_ws (line : Bytes) : List Bytes := split_ws_go line false 0 [] []

/-- The `isspace` set consumed by `strtoul` before the number. -/
def isStrtoulWS (c : Nat) : Bool := c = 32 ∨ (9 ≤ c ∧ c ≤ 13)

/-- `strtoul(s, &end, 10)` combined with the caller's
`errno == 0 && *end == '\0'` acceptance: optional leading whitespace, an
optional sign, at least one digit consuming the whole rest of the string;
overflow past `ULONG_MAX` is rejected (`ERANGE`), a negative input wraps. -/
def parseStrtoul10 (s : Bytes) : Option Nat :=
  let s1 := s.dropWhile isStrtoulWS
  let signed : Bool × Bytes :=
    match s1 with
    | 43 :: r => (false, r)
    | 45 :: r => (true, r)
    | _ => (false, s1)
  let digits := signed.2.takeWhile (fun c => 48 ≤ c ∧ c ≤ 57)
  let restp := signed.2.drop digits.length
  if digits = [] ∨ restp ≠ [] then none
  else
    let v := digits.foldl (fun a c => a * 10 + (c - 48)) 0
    if v > 18446744073709551615 then none
    else some (if signed.1 then (18446744073709551616 - v) % 18446744073709551616 else v)

/-- Index of the first occurrence of a byte (`find`). -/
def firstIdxOf (b : Nat) : Bytes → Option Nat
  | [] => none
  | c :: rest => if c = b then some 0 else (firstIdxOf b rest).map (· + 1)

/-- The mutable compiler state of the line loop. -/
structure CompileState where
  cwd : Bytes
  timeout_ms : Nat
  total_write : Nat
  env : List (Bytes × Bytes)
  steps : List Step
  deriving DecidableEq, Repr

/-- The `cd` instruction. -/
def lineCd (st : CompileState) (args : List Bytes) : Except Bytes CompileState :=
  if args.length ≠ 1 then .error (bytes "cd requires exactly 1 arg")
  else .ok { st with cwd := args.headD [] }

/-- The `timeout` instruction. -/
def lineTimeout (st : CompileState) (args : List Bytes) :
    Except Bytes CompileState :=
  if args.length ≠ 1 then .error (bytes "timeout requires exactly 1 arg")
  else
    match parseStrtoul10 (args.headD []) with
    | none => .error (bytes "invalid timeout value")
    | some v => .ok { st with timeout_ms := min v 4294967295 }

/-- The `env` instruction. -/
def lineEnv (st : CompileState) (args : List Bytes) : Except Bytes CompileState :=
  if args.length ≠ 1 then .error (bytes "env requires exactly 1 arg (KEY=VALUE)")
  else
    match firstIdxOf 61 (args.headD []) with
    | none => .error (bytes "env requires KEY=VALUE")
    | some eq =>
      if eq = 0 then .error (bytes "env requires KEY=VALUE")
      else .ok { st with env := mapSet st.env ((args.headD []).take eq) ((args.headD []).drop (eq + 1)) }

/-- The `put` instruction; `readSrc` is the filesystem oracle for the
source file (`none` = it cannot be opened/read). -/
def linePut (readSrc : Bytes → Option Bytes) (st : CompileState)
    (args : List Bytes) : Except Bytes CompileState :=
  if args.length ≠ 2 then
    .error (bytes "put requires: put <dest_abs_path> @<src_path>")
  else
    if args.headD [] = [] ∨ (args.headD []).headD 0 ≠ 47 then
      .error (bytes "put destination must be an absolute path")
    else if (args.getD 1 []).length < 2 ∨ (args.getD 1 []).headD 0 ≠ 64 then
      .error (bytes "put source must be @<path>")
    else
      match readSrc ((args.getD 1 []).drop 1) with
      | none =>
        .error (bytes "put unable to open source: " ++ (args.getD 1 []).drop 1)
      | some data =>
        if st.total_write + data.length > kMaxTotalWriteBytes then
          .error (bytes "total embedded write bytes too large")
        else .ok { st with
          total_write := st.total_write + data.length,
          steps := st.steps ++ [.write ⟨args.headD [], data, 420⟩] }

/-- The `exec` instruction. -/
def lineExec (st : CompileState) (args : List Bytes) : Except Bytes CompileState :=
  if args = [] then .error (bytes "exec requires at least 1 arg")
  else .ok { st with steps := st.steps ++ [.exec ⟨args, st.cwd, st.timeout_ms⟩] }

/-- One line of `compile_script`: trim, skip blanks and comments, tokenize,
and dispatch on the instruction. -/
def compileLine (readSrc : Bytes → Option Bytes) (st : CompileState)
    (line : Bytes) : Except Bytes CompileState :=
  if trim line = [] then .ok st
  else if (trim line).headD 0 = 35 then .ok st
  else
    match split_ws (trim line) with
    | [] => .ok st
    | op :: args =>
      if op = bytes "cd" then lineCd st args
      else if op = bytes "timeout" then lineTimeout st args
      else if op = bytes "env" then lineEnv st args
      else if op = bytes "put" then linePut readSrc st args
      else if op = bytes "exec" then lineExec st args
      else .error (bytes "unknown instruction: " ++ op)

/-- The line loop, stopping at the first error. -/
def compileLines (readSrc : Bytes → Option Bytes) :
    CompileState → List Bytes → Except Bytes CompileState
  | st, [] => .ok st
  | st, l :: rest =>
    match compileLine readSrc st l with
    | .error e => .error e
    | .ok st2 => compileLines readSrc st2 rest

/-- `compile_script`: run the line loop from the empty state, reject a
zero-step result, and assemble the pack (`expires_ms = now + ttl` when a
TTL is given, `pack_id` from the random oracle). -/
def compile_script (readSrc : Bytes → Option Bytes) (script : Bytes)
    (key_id : Bytes) (now_ms ttl_ms : Nat) (pack_id : Bytes) :
    Except Bytes Pack :=
  match compileLines readSrc ⟨[], 0, 0, [], []⟩ (splitLines script) with
  | .error e => .error e
  | .ok st =>
    if st.steps = [] then .error (bytes "script has no steps")
    else .ok ⟨key_id, now_ms,
      (if ttl_ms ≠ 0 then (now_ms + ttl_ms) % 2 ^ 64 else 0),
      pack_id, st.env, st.steps⟩

/-! ## C7: what the compiler enforces -/

theorem bytes_execx : bytes "exec x" = [101, 120, 101, 99, 32, 120] := rfl

theorem splitLines_execx (R : Bytes) :
    splitLines (bytes "exec x" ++ 10 :: R) = bytes "exec x" :: splitLines R := by
  rw [bytes_execx]
  conv_lhs => rw [splitLines]
  simp

theorem compileLine_execx (readSrc : Bytes → Option Bytes) (st : CompileState) :
    compileLine readSrc st (bytes "exec x") =
      .ok ⟨st.cwd, st.timeout_ms, st.total_write, st.env,
           st.steps ++ [.exec ⟨[bytes "x"], st.cwd, st.timeout_ms⟩]⟩ := rfl

theorem compileLines_execx (readSrc : Bytes → Option Bytes) :
    ∀ (n : Nat) (st : CompileState),
      compileLines readSrc st (List.replicate n (bytes "exec x")) =
        .ok ⟨st.cwd, st.timeout_ms, st.total_write, st.env,
             st.steps ++ List.replicate n (.exec ⟨[bytes "x"], st.cwd, st.timeout_ms⟩)⟩ := by
  intro n
  induction n with
  | zero => intro st; simp [compileLines]
  | succ m ih =>
    intro st
    simp only [List.replicate_succ, compileLines, compileLine_execx, ih]
    simp [List.replicate_succ', List.append_assoc]

theorem splitLines_execx_rep (n : Nat) :
    splitLines (List.flatten (List.replicate n (bytes "exec x" ++ [10]))) =
      List.replicate n (bytes "exec x") := by
  induction n with
  | zero => simp [splitLines]
  | succ m ih =>
    simp only [List.replicate_succ, List.flatten_cons, List.append_assoc,
      List.cons_append, List.nil_append, splitLines_execx, ih]

theorem compile_script_execx (n : Nat) (hn : n ≠ 0) :
    compile_script (fun _ => none)
        (List.flatten (List.replicate n (bytes "exec x" ++ [10])))
        (bytes "k") 0 0 (List.replicate 16 0) =
      .ok ⟨bytes "k", 0, 0, List.replicate 16 0, [],
           List.replicate n (.exec ⟨[bytes "x"], [], 0⟩)⟩ := by
  have hcl := compileLines_execx (fun _ => none) n ⟨[], 0, 0, [], []⟩
  have hne : ¬ ([] : List Step) ++ List.replicate n
      (Step.exec ⟨[bytes "x"], [], 0⟩) = [] := by
    intro hnil
    have hlen := congrArg List.length hnil
    simp only [List.nil_append, List.length_replicate, List.length_nil] at hlen
    exact hn hlen
  simp only [compile_script, splitLines_execx_rep, hcl]
  rw [if_neg hne]
  rfl

/-- C7 counterexample: a script of 10 001 `exec x` lines compiles
successfully into a pack of 10 001 steps — `compile_script` does not
enforce the 10 000-step cap (invariant 1). -/
theorem C7_step_cap_not_enforced :
    compile_script (fun _ => none)
        (List.flatten (List.replicate 10001 (bytes "exec x" ++ [10])))
        (bytes "k") 0 0 (List.replicate 16 0) =
      .ok ⟨bytes "k", 0, 0, List.replicate 16 0, [],
           List.replicate 10001 (.exec ⟨[bytes "x"], [], 0⟩)⟩ ∧
    (List.replicate 10001 (Step.exec ⟨[bytes "x"], [], 0⟩)).length = 10001 ∧
    10001 > kMaxPayloadSteps :=
  ⟨compile_script_execx 10001 (by decide), List.length_replicate 10001 _,
   by decide⟩

theorem writeSum_append_exec (l : List Step) (e : ExecStep) :
    writeSum (l ++ [.exec e]) = writeSum l := by
  induction l with
  | nil => simp [writeSum]
  | cons st rest ih =>
    cases st <;> simp [writeSum, ih]

theorem writeSum_append_write (l : List Step) (wf : WriteFileStep) :
    writeSum (l ++ [.write wf]) = writeSum l + wf.data.length := by
  induction l with
  | nil => simp [writeSum]
  | cons st rest ih =>
    cases st <;> simp [writeSum, ih] <;> omega

/-- The compiler-loop invariant: the running total equals the embedded
write bytes of the steps so far and stays within the 8 MiB cap. -/
def StepsInv (st : CompileState) : Prop :=
  st.total_write = writeSum st.steps ∧ st.total_write ≤ kMaxTotalWriteBytes

theorem lineCd_inv {st st2 : CompileState} {args : List Bytes}
    (hinv : StepsInv st) (h : lineCd st args = .ok st2) : StepsInv st2 := by
  simp only [lineCd] at h
  split at h
  · exact Except.noConfusion h
  · injection h with h2
    subst h2
    exact hinv

theorem lineTimeout_inv {st st2 : CompileState} {args : List Bytes}
    (hinv : StepsInv st) (h : lineTimeout st args = .ok st2) : StepsInv st2 := by
  simp only [lineTimeout] at h
  split at h
  · exact Except.noConfusion h
  · split at h
    · exact Except.noConfusion h
    · injection h with h2
      subst h2
      exact hinv

theorem lineEnv_inv {st st2 : CompileState} {args : List Bytes}
    (hinv : StepsInv st) (h : lineEnv st args = .ok st2) : StepsInv st2 := by
  simp only [lineEnv] at h
  split at h
  · exact Except.noConfusion h
  · split at h
    · exact Except.noConfusion h
    · split at h
      · exact Except.noConfusion h
      · injection h with h2
        subst h2
        exact hinv

theorem linePut_inv {readSrc : Bytes → Option Bytes} {st st2 : CompileState}
    {args : List Bytes} (hinv : StepsInv st)
    (h : linePut readSrc st args = .ok st2) : StepsInv st2 := by
  simp only [linePut] at h
  split at h
  · exact Except.noConfusion h
  · split at h
    · exact Except.noConfusion h
    · split at h
      · exact Except.noConfusion h
      · split at h
        · exact Except.noConfusion h
        · next data heq =>
          split at h
          · exact Except.noConfusion h
          · next hcap =>
            injection h with h2
            subst h2
            obtain ⟨he, hle⟩ := hinv
            constructor
            · simp only [writeSum_append_write]
              omega
            · simp only at hcap ⊢
              omega

theorem lineExec_inv {st st2 : CompileState} {args : List Bytes}
    (hinv : StepsInv st) (h : lineExec st args = .ok st2) : StepsInv st2 := by
  simp only [lineExec] at h
  split at h
  · exact Except.noConfusion h
  · injection h with h2
    subst h2
    obtain ⟨he, hle⟩ := hinv
    exact ⟨by simpa [writeSum_append_exec] using he, hle⟩

theorem compileLine_inv {readSrc : Bytes → Option Bytes} {st : CompileState}
    {l : Bytes} {st2 : CompileState} (hinv : StepsInv st)
    (h : compileLine readSrc st l = .ok st2) : StepsInv st2 := by
  simp only [compileLine] at h
  split at h
  · injection h with h2
    subst h2
    exact hinv
  · split at h
    · injection h with h2
      subst h2
      exact hinv
    · split at h
      · injection h with h2
        subst h2
        exact hinv
      · split at h
        · exact lineCd_inv hinv h
        · split at h
          · exact lineTimeout_inv hinv h
          · split at h
            · exact lineEnv_inv hinv h
            · split at h
              · exact linePut_inv hinv h
              · split at h
                · exact lineExec_inv hinv h
                · exact Except.noConfusion h

theorem compileLines_inv {readSrc : Bytes → Option Bytes} :
    ∀ {lines : List Bytes} {st st2 : CompileState},
      StepsInv st → compileLines readSrc st lines = .ok st2 → StepsInv st2 := by
  intro lines
  induction lines with
  | nil =>
    intro st st2 hinv h
    injection h with h2
    subst h2
    exact hinv
  | cons l rest ih =>
    intro st st2 hinv h
    simp only [compileLines] at h
    split at h
    · exact Except.noConfusion h
    · next st1 hst1 =>
      exact ih (compileLine_inv hinv hst1) h

/-- C7 amended: `compile_script` enforces invariant 2 (at most 8 MiB of
total embedded write bytes) while reading and rejects a zero-step script
with `script has no steps`; invariant 1 (at most 10 000 steps) is NOT
checked by the compiler (see the counterexample) but is enforced at
signing time by `encode_payload`, which fails with `too many steps`. -/
theorem C7_compiler_enforcement (readSrc : Bytes → Option Bytes)
    (script key_id : Bytes) (now_ms ttl_ms : Nat) (pack_id : Bytes) (p : Pack)
    (h : compile_script readSrc script key_id now_ms ttl_ms pack_id = .ok p) :
    (writeSum p.steps ≤ kMaxTotalWriteBytes ∧ p.steps ≠ []) ∧
    (∀ q : Pack, q.key_id ≠ [] → q.key_id.length ≤ 255 →
      q.steps.length > kMaxPayloadSteps →
      encode_payload q = .error (bytes "too many steps")) := by
  constructor
  · simp only [compile_script] at h
    split at h
    · exact Except.noConfusion h
    · next st hst =>
      split at h
      · exact Except.noConfusion h
      · next hne =>
        injection h with h2
        subst h2
        obtain ⟨heq, hle⟩ := compileLines_inv
          (⟨rfl, Nat.zero_le _⟩ : StepsInv ⟨[], 0, 0, [], []⟩) hst
        exact ⟨by simpa [heq] using hle, by simpa using hne⟩
  · intro q hk1 hk2 hsteps
    simp only [encode_payload, if_neg hk1, if_neg (by omega : ¬ q.key_id.length > 255),
      if_pos hsteps]

theorem C7_compiler_enforcement_witness :
    (compile_script (fun _ => none)
        (List.flatten (List.replicate 1 (bytes "exec x" ++ [10])))
        (bytes "k") 0 0 (List.replicate 16 0) =
      .ok ⟨bytes "k", 0, 0, List.replicate 16 0, [],
           List.replicate 1 (.exec ⟨[bytes "x"], [], 0⟩)⟩) ∧
    ((writeSum (List.replicate 1 (Step.exec ⟨[bytes "x"], [], 0⟩)) ≤
        kMaxTotalWriteBytes ∧
      List.replicate 1 (Step.exec ⟨[bytes "x"], [], 0⟩) ≠ ([] : List Step)) ∧
     (∀ q : Pack, q.key_id ≠ [] → q.key_id.length ≤ 255 →
       q.steps.length > kMaxPayloadSteps →
       encode_payload q = .error (bytes "too many steps"))) :=
  ⟨compile_script_execx 1 (by decide),
   C7_compiler_enforcement (fun _ => none)
     (List.flatten (List.replicate 1 (bytes "exec x" ++ [10]))) (bytes "k")
     0 0 (List.replicate 16 0) _ (compile_script_execx 1 (by decide))⟩

/-! ## C8: what the payload decoder does not check -/

/-- A well-formed version-2 payload: header, key `k`, one exec step with
`argc = 0`. -/
def c8ExecPayload : Bytes :=
  [65, 80, 75, 49] ++ [2, 1] ++ [0, 0] ++ List.replicate 8 0 ++
  List.replicate 8 0 ++ List.replicate 16 0 ++ [0, 0, 0, 0] ++ [1, 0, 0, 0] ++
  [107] ++ ([1, 0] ++ [0, 0] ++ [0, 0, 0, 0] ++ [0, 0] ++ [0, 0])

/-- A well-formed version-2 payload: header, key `k`, one write step whose
path is the single byte `x` (not absolute) and whose blob is empty. -/
def c8WritePayload : Bytes :=
  [65, 80, 75, 49] ++ [2, 1] ++ [0, 0] ++ List.replicate 8 0 ++
  List.replicate 8 0 ++ List.replicate 16 0 ++ [0, 0, 0, 0] ++ [1, 0, 0, 0] ++
  [107] ++ ([2, 0] ++ [0, 0] ++ [0, 0, 0, 0] ++ [1, 0, 120] ++ [0, 0, 0, 0])

/-- C8 counterexample: `decode_payload` accepts a payload whose only exec
step has an empty argv (violating invariant 4) and a payload whose only
write step has a non-absolute path (violating invariant 3). -/
theorem C8_decode_accepts_violations :
    decode_payload c8ExecPayload =
      .ok ⟨[107], 0, 0, List.replicate 16 0, [], [.exec ⟨[], [], 0⟩]⟩ ∧
    decode_payload c8WritePayload =
      .ok ⟨[107], 0, 0, List.replicate 16 0, [], [.write ⟨[120], [], 0⟩]⟩ := by
  constructor
  · decide
  · decide

/-- C8 amended: `decode_payload` does not enforce invariants 3 and 4 (see
the counterexample); the violations are rejected at execution time
instead: the step loop answers `STEP i ERR empty argv` without spawning
for an empty argv, and `safe_write_file` rejects a non-absolute path with
`path must be absolute`. -/
theorem C8_invariants_enforced_late (cfg : ServerCfg) (w : World)
    (policy : Option KeyPolicy) (env_add : List (Bytes × Bytes)) (c : Bytes)
    (t : Nat) (rest : List Step) (i : Nat) (written : List Bytes) :
    (runSteps cfg w policy env_add (.exec ⟨[], c, t⟩ :: rest) i written =
      (bytes "STEP " ++ natBytes i ++ bytes " ERR empty argv" ++ [10], [])) ∧
    (∀ (root_real : Bytes) (allow : Bool) (path : Bytes)
       (realpath : Bytes → Bytes) (low : LowWriteResult) (mode : Nat),
      path = [] ∨ path.headD 0 ≠ 47 →
      safe_write_file root_real allow path realpath low mode =
        .error (bytes "path must be absolute")) := by
  constructor
  · simp [runSteps]
  · intro root_real allow path realpath low mode h
    simp only [safe_write_file]
    rw [if_pos h]

theorem C8_invariants_enforced_late_witness :
    (([120] : Bytes) = [] ∨ ([120] : Bytes).headD 0 ≠ 47) ∧
    safe_write_file (bytes "/sb") false [120] (fun p => p) .ok 420 =
      .error (bytes "path must be absolute") :=
  ⟨Or.inr (by decide),
   (C8_invariants_enforced_late exCfg exWorld none [] [] 0 [] 0 []).2
     (bytes "/sb") false [120] (fun p => p) .ok 420 (Or.inr (by decide))⟩

/-! ## C9: sender CLI exit codes (`action_pack_cli.cpp`, `send_to`)

`send_to` dials the receiver, writes the envelope, half-closes, reads the
transcript and prints it.  The network is abstracted as `NetOutcome`; the
returned pair is the process exit code (what `cmd_action_pack` returns for
`run`/`send`) and the bytes printed to stdout. -/

/-- Index of the last occurrence of a byte (`rfind`). -/
def lastIdxOf (b : Nat) : Bytes → Option Nat
  | [] => none
  | c :: rest =>
    match lastIdxOf b rest with
    | some i => some (i + 1)
    | none => if c = b then some 0 else none

/-- The host/port validation shared by both address forms of
`parse_host_port`: nonempty host and port, decimal port at most 65535. -/
def parseHostPortParts (h p : Bytes) : Option (Bytes × Nat) :=
  if h = [] ∨ p = [] then none
  else
    match parseStrtoul10 p with
    | none => none
    | some v => if v > 65535 then none else some (h, v)

/-- `parse_host_port`: `[ipv6]:port` or `host:port` (split at the last
colon). -/
def parse_host_port (s : Bytes) : Option (Bytes × Nat) :=
  if s ≠ [] ∧ s.headD 0 = 91 then
    match firstIdxOf 93 s with
    | none => none
    | some rb =>
      if rb + 1 ≥ s.length ∨ s.getD (rb + 1) 0 ≠ 58 then none
      else parseHostPortParts ((s.drop 1).take (rb - 1)) (s.drop (rb + 2))
  else
    match lastIdxOf 58 s with
    | none => none
    | some colon => parseHostPortParts (s.take colon) (s.drop (colon + 1))

/-- `resolve_receiver_addr`: an argument containing a colon is used as-is,
otherwise it is looked up in the receiver directory; empty = unknown. -/
def resolve_receiver_addr (receivers : List (Bytes × Bytes)) (dest : Bytes) :
    Bytes :=
  if dest.contains 58 = true then dest
  else
    match mapFind receivers dest with
    | none => []
    | some a => a

/-- The network outcome of one `send_to` call: name resolution, connect,
write or read failure, or a received transcript. -/
inductive NetOutcome where
  | resolveFail
  | connectFail
  | writeFail
  | readFail
  | received (resp : Bytes)
  deriving DecidableEq, Repr

/-- `send_to`: exit code and stdout.  Every failure path returns 1; a
received transcript is printed verbatim (with a trailing newline ensured)
and the function returns 0 — the first line is never inspected. -/
def send_to (receivers : List (Bytes × Bytes)) (addr : Bytes) (net : NetOutcome) :
    Nat × Bytes :=
  if resolve_receiver_addr receivers addr = [] then (1, [])
  else
    match parse_host_port (resolve_receiver_addr receivers addr) with
    | none => (1, [])
    | some _ =>
      match net with
      | .resolveFail => (1, [])
      | .connectFail => (1, [])
      | .writeFail => (1, [])
      | .readFail => (1, [])
      | .received resp =>
        (0, resp ++ (if resp ≠ [] ∧ resp.getLast? ≠ some 10 then [10] else []))

/-- C9 counterexample: a `send`/`run` whose received transcript's first
line is `ERR replay` (not `OK ...`) exits with code 0, not 1 — `send_to`
never inspects the first line. -/
theorem C9_nonOK_transcript_exits_zero :
    send_to [] (bytes "1.2.3.4:5") (.received (bytes "ERR replay" ++ [10])) =
      (0, bytes "ERR replay" ++ [10]) ∧
    startsWithBytes (bytes "OK") (bytes "ERR replay" ++ [10]) = false ∧
    (0 : Nat) ≠ 1 := by
  refine ⟨by decide, by decide, by decide⟩

/-- C9 amended: the sender transport exits 1 on an unknown receiver, a bad
address, or any resolve/connect/write/read failure, and exits 0 whenever a
transcript is received — regardless of its first line — printing it with a
trailing newline ensured.  (A non-`OK` transcript does NOT cause exit code
1; see the counterexample.) -/
theorem C9_send_exit_codes (receivers : List (Bytes × Bytes)) (addr : Bytes)
    (net : NetOutcome) :
    ((net = .resolveFail ∨ net = .connectFail ∨ net = .writeFail ∨
      net = .readFail) → (send_to receivers addr net).1 = 1) ∧
    (resolve_receiver_addr receivers addr = [] →
      (send_to receivers addr net).1 = 1) ∧
    (parse_host_port (resolve_receiver_addr receivers addr) = none →
      (send_to receivers addr net).1 = 1) ∧
    (∀ resp, net = .received resp →
      resolve_receiver_addr receivers addr ≠ [] →
      (∃ hp, parse_host_port (resolve_receiver_addr receivers addr) = some hp) →
      send_to receivers addr net =
        (0, resp ++ (if resp ≠ [] ∧ resp.getLast? ≠ some 10 then [10] else []))) := by
  refine ⟨?_, ?_, ?_, ?_⟩
  · intro hfail
    simp only [send_to]
    split
    · rfl
    · split
      · rfl
      · rcases hfail with h | h | h | h <;> subst h <;> rfl
  · intro hres
    simp [send_to, hres]
  · intro hpar
    simp only [send_to]
    split
    · rfl
    · split
      · rfl
      · next hsome => rw [hpar] at hsome; exact Option.noConfusion hsome
  · intro resp hnet hres hpar
    subst hnet
    obtain ⟨hp, hhp⟩ := hpar
    simp [send_to, if_neg hres, hhp]

theorem C9_send_exit_codes_witness :
    ((NetOutcome.received (bytes "OK pack_id=00 steps=0" ++ [10]) = .resolveFail ∨
      NetOutcome.received (bytes "OK pack_id=00 steps=0" ++ [10]) = .connectFail ∨
      NetOutcome.received (bytes "OK pack_id=00 steps=0" ++ [10]) = .writeFail ∨
      NetOutcome.received (bytes "OK pack_id=00 steps=0" ++ [10]) = .readFail) →
      (send_to [] (bytes "1.2.3.4:5")
        (.received (bytes "OK pack_id=00 steps=0" ++ [10]))).1 = 1) ∧
    (send_to [] (bytes "1.2.3.4:5")
        (.received (bytes "OK pack_id=00 steps=0" ++ [10]))) =
      (0, (bytes "OK pack_id=00 steps=0" ++ [10]) ++ []) :=
  have hthm := C9_send_exit_codes [] (bytes "1.2.3.4:5")
    (.received (bytes "OK pack_id=00 steps=0" ++ [10]))
  ⟨hthm.1,
   by
    have h4 := hthm.2.2.2 (bytes "OK pack_id=00 steps=0" ++ [10]) rfl
      (by decide) ⟨(bytes "1.2.3.4", 5), by decide⟩
    simpa using h4⟩

end ActionPack
